import Mathlib

/-!
Verification of the Mad-Recon pipeline orchestrator (src/mad_recon.py)
against its natural-language specification.

The Python source is shallowly embedded: the filesystem is an association
list from paths to file contents, the outside world (which executables are
installed, what each spawned subprocess does) is a `World` record, and every
function of the source becomes a Lean function threading an explicit state.
The state also carries a trace of the successfully spawned command lines, so
that "tool X was run" is an observable proposition.  The only Python
exception that can escape the orchestrator (the IndexError in the
first-host extraction of step 6) is modelled with `Except`.
-/

/-! ## Python string primitives used by the source -/

/-- Whitespace characters recognised by Python `str.strip()` / `str.split()`
(ASCII subset; the source only ever meets ASCII whitespace). -/
def isPySpace (c : Char) : Bool :=
  c = ' ' || c = '\t' || c = '\n' || c = '\r' || c = Char.ofNat 11 || c = Char.ofNat 12

/-- Strip leading and trailing whitespace from a character list
(model of Python `str.strip()`). -/
def stripChars (cs : List Char) : List Char :=
  ((cs.dropWhile isPySpace).reverse.dropWhile isPySpace).reverse

/-- Model of Python `str.strip()`. -/
def pyStrip (s : String) : String := ⟨stripChars s.data⟩

/-- Split a character list at every newline; the separators are dropped.
`splitChars` always returns at least one (possibly empty) chunk, exactly
like `String.splitOn` would. -/
def splitChars : List Char → List (List Char)
  | [] => [[]]
  | c :: rest =>
    if c = '\n' then [] :: splitChars rest
    else
      match splitChars rest with
      | [] => [[c]]
      | h :: t => (c :: h) :: t

/-- Lines of a file as Python `for line in fh` yields them, except that the
trailing newline of each line is dropped (every consumer in the source
strips the line first, so the terminator never matters).  An empty file has
no lines; a trailing newline does not create an extra empty line. -/
def pyLines (s : String) : List String :=
  let cs := splitChars s.data
  (if cs.getLast? = some [] then cs.dropLast else cs).map fun l => ⟨l⟩

/-- Structural worker for `pyWords`: the fuel only needs to cover the list
length, since every step consumes at least one character.  (Fuel keeps the
recursion structural, so that the kernel can evaluate it.) -/
def pyWordsAux : Nat → List Char → List (List Char)
  | 0, _ => []
  | _ + 1, [] => []
  | fuel + 1, c :: rest =>
    if isPySpace c then pyWordsAux fuel rest
    else (c :: rest.takeWhile (fun x => !isPySpace x)) ::
      pyWordsAux fuel (rest.dropWhile (fun x => !isPySpace x))

/-- Words of a character list: model of Python `str.split()` with no
arguments (split on whitespace runs, discarding empty chunks). -/
def pyWords (cs : List Char) : List (List Char) := pyWordsAux cs.length cs

/-- Model of Python `os.path.basename`: the part of the path after the last
slash. -/
def basename (p : String) : String :=
  ⟨(p.data.reverse.takeWhile (fun c => !(c = '/'))).reverse⟩

/-- Root part of Python `os.path.splitext`: everything before the last dot,
or the whole string when there is no dot.  (The Python original keeps a
leading dot of a hidden file; the source only applies this to names of the
form `<base>.txt`, where the two functions agree.) -/
def splitextRoot (p : String) : String :=
  if p.data.any (fun c => c = '.') then
    ⟨(((p.data.reverse.dropWhile (fun c => !(c = '.'))).drop 1)).reverse⟩
  else p

/-- Model of Python `str.rstrip("/")`. -/
def rstripSlash (s : String) : String :=
  ⟨(s.data.reverse.dropWhile (fun c => c = '/')).reverse⟩

/-- Lexicographic code-point comparison of character lists: the order in
which Python `sorted` lists strings.  (Defined from scratch because the
library order on `String` is not kernel-computable here.) -/
def lexLe : List Char → List Char → Bool
  | [], _ => true
  | _ :: _, [] => false
  | a :: as, b :: bs => if a = b then lexLe as bs else decide (a < b)

/-- The string order used by the Merge Engine model: Python `sorted`. -/
def pyLe (a b : String) : Prop := lexLe a.data b.data = true

instance : DecidableRel pyLe :=
  fun a b => inferInstanceAs (Decidable (lexLe a.data b.data = true))

/-! ## Filesystem and world model -/

/-- The filesystem visible to the orchestrator: an association list from
paths to file contents.  `FS.write` models `open(path, "w")` followed by a
full write: it replaces any previous content. -/
def FS : Type := List (String × String)

def FS.read (fs : FS) (p : String) : Option String :=
  List.lookup p fs

def FS.write (fs : FS) (p c : String) : FS :=
  (p, c) :: List.filter (fun e => !(e.1 = p)) fs

/-- Model of Python `os.path.exists`. -/
def os_path_exists (fs : FS) (p : String) : Bool :=
  (FS.read fs p).isSome

/-- Model of `os.path.join` as the source uses it (directory, then name). -/
def os_path_join (d n : String) : String := d ++ "/" ++ n

/-- What one spawned subprocess does: either it runs and yields stdout,
stderr and a return code, or the spawn itself raises (permission error,
etc.) with an exception message. -/
inductive ProcResult where
  | ok (stdout stderr : String) (returncode : Int)
  | exn (msg : String)

/-- The execution environment: which executables are resolvable on PATH
(`shutil.which`), what any given command line does when spawned, and the
current clock value (used only in artifact names that embed
`int(time.time())`; the model uses a single value for the run). -/
structure World where
  installed : String → Bool
  exec : List String → ProcResult
  time : Nat

/-- Model of `shutil.which(tool) is not None` (the helper `which` of the
source). -/
def which (w : World) (tool : String) : Bool := w.installed tool

/-- Orchestrator state: the filesystem plus a trace of the command lines
handed to `subprocess.run` (instrumentation used to state "tool X was run";
the Python source has no such trace). -/
structure St where
  fs : FS
  tr : List (List String)

/-- Model of the helper `write_file` of the source. -/
def write_file (st : St) (path content : String) : St :=
  { st with fs := st.fs.write path content }

/-- Rendering of a Python list of strings inside an f-string, as used by
the diagnostic message of `run_cmd` (the model omits the quotes Python
`repr` puts around each element). -/
def cmdRepr (cmd : List String) : String :=
  "[" ++ String.intercalate ", " cmd ++ "]"

/-- Model of `run_cmd` of the source (src/mad_recon.py lines 52-73; the
source name is a reserved token in Lean, hence the camel case): spawn the command,
and when an output path is given write stdout, then - when stderr is
non-empty - a delimited stderr section.  A spawn exception is absorbed: a
diagnostic line is written to the output path (when given) and the call
returns `("", str(e), 1)`.  The call never raises. -/
def runCmd (w : World) (st : St) (cmd : List String) (outpath : Option String) :
    (String × String × Int) × St :=
  let st := { st with tr := st.tr ++ [cmd] }
  match w.exec cmd with
  | .ok stdout stderr rc =>
    let content := stdout ++ (if stderr = "" then "" else "\n--- STDERR ---\n" ++ stderr)
    let st :=
      match outpath with
      | some p => { st with fs := st.fs.write p content }
      | none => st
    ((stdout, stderr, rc), st)
  | .exn e =>
    let diag := "Error executing command " ++ cmdRepr cmd ++ ": " ++ e ++ "\n"
    let st :=
      match outpath with
      | some p => { st with fs := st.fs.write p diag }
      | none => st
    (("", e, 1), st)

/-- The text of the marker artifact written for an absent tool (the model
omits the quotes around the tool name). -/
def missingMsg (tool : String) : String :=
  "Tool " ++ tool ++ " not found in PATH. Install it and re-run.\n"

/-- Model of `ensure_tool` (lines 75-81): check tool presence; when the tool
is missing write a `<tool>_missing.txt` marker artifact and return false. -/
def ensure_tool (w : World) (st : St) (tool outdir : String) : Bool × St :=
  if which w tool then (true, st)
  else (false, write_file st (os_path_join outdir (tool ++ "_missing.txt")) (missingMsg tool))

/-- Model of `safe_join` (lines 83-85). -/
def safe_join (outdir name : String) : String := os_path_join outdir name

/-! ## Module wrappers (src/mad_recon.py lines 89-233)

Each wrapper mirrors one `<tool>_module` function of the source: compute
the output path, check tool presence with `ensure_tool` (returning early
after the marker artifact when absent), then spawn the tool through
`runCmd`.  Header-aware wrappers extend the command with `-H h` for each
header, in order, exactly as the source `for h in headers` loop does. -/

/-- Append `-H h` for every header, in order (the source loop
`for h in headers: cmd.extend(["-H", h])`). -/
def addHeaders (cmd : List String) (headers : List String) : List String :=
  headers.foldl (fun c h => c ++ ["-H", h]) cmd

/-- The shape shared by every module wrapper: check tool presence (writing
the marker artifact and stopping when absent), otherwise spawn the given
command line. -/
def tool_step (w : World) (st : St) (tool outdir : String) (cmd : List String)
    (outpath : Option String) : St :=
  match ensure_tool w st tool outdir with
  | (false, st) => st
  | (true, st) => (runCmd w st cmd outpath).2

def subfinder_module (w : World) (domain outdir : String) (st : St) : St :=
  let out := safe_join outdir ("subfinder_" ++ domain ++ ".txt")
  tool_step w st "subfinder" outdir ["subfinder", "-d", domain, "-silent"] (some out)

def assetfinder_module (w : World) (domain outdir : String) (st : St) : St :=
  let out := safe_join outdir ("assetfinder_" ++ domain ++ ".txt")
  tool_step w st "assetfinder" outdir ["assetfinder", "--subs-only", domain] (some out)

def amass_module (w : World) (domain outdir : String) (st : St) : St :=
  let out := safe_join outdir ("amass_" ++ domain ++ ".txt")
  tool_step w st "amass" outdir ["amass", "enum", "-passive", "-d", domain] (some out)

def wayback_module (w : World) (domain outdir : String) (st : St) : St :=
  let out := safe_join outdir ("wayback_" ++ domain ++ ".txt")
  tool_step w st "waybackurls" outdir ["waybackurls", domain] (some out)

def gau_module (w : World) (domain outdir : String) (st : St) : St :=
  let out := safe_join outdir ("gau_" ++ domain ++ ".txt")
  tool_step w st "gau" outdir ["gau", domain] (some out)

def katana_module (w : World) (domain outdir : String) (headers : List String) (st : St) : St :=
  let out := safe_join outdir ("katana_" ++ domain ++ ".txt")
  tool_step w st "katana" outdir (addHeaders ["katana", "-u", domain, "-silent", "-depth", "2"] headers) (some out)

def httpx_module (w : World) (input_file outdir : String) (headers : List String) (st : St) : St :=
  let out := safe_join outdir ("httpx_live_" ++ basename input_file ++ ".txt")
  tool_step w st "httpx" outdir
    (addHeaders ["httpx", "-l", input_file, "-silent", "-status-code", "-title", "-follow-redirects"] headers)
    (some out)

def nuclei_module (w : World) (input_file outdir : String) (headers : List String) (st : St) : St :=
  let out := safe_join outdir ("nuclei_" ++ basename input_file ++ ".txt")
  tool_step w st "nuclei" outdir (addHeaders ["nuclei", "-l", input_file, "-silent"] headers) (some out)

def naabu_module (w : World) (input_file outdir : String) (st : St) : St :=
  let out := safe_join outdir ("naabu_" ++ basename input_file ++ ".txt")
  tool_step w st "naabu" outdir ["naabu", "-list", input_file, "-silent", "-top-100"] (some out)

def dnsx_module (w : World) (input_file outdir : String) (st : St) : St :=
  let out := safe_join outdir ("dnsx_" ++ basename input_file ++ ".txt")
  tool_step w st "dnsx" outdir ["dnsx", "-l", input_file, "-silent"] (some out)

def ffuf_module (w : World) (wordlist url_template outdir : String) (headers : List String) (st : St) : St :=
  let out := safe_join outdir ("ffuf_" ++ toString w.time ++ ".txt")
  tool_step w st "ffuf" outdir
    (addHeaders ["ffuf", "-w", wordlist, "-u", url_template, "-mc", "200,301,302", "-s"] headers)
    (some out)

def gobuster_module (w : World) (wordlist url outdir : String) (headers : List String) (st : St) : St :=
  let out := safe_join outdir ("gobuster_" ++ toString w.time ++ ".txt")
  tool_step w st "gobuster" outdir (addHeaders ["gobuster", "dir", "-w", wordlist, "-u", url, "-q"] headers) (some out)

/-- Model of `dalfox_module`: dalfox writes its own output via `-o`, so the
source passes no output path to its process runner (`run_cmd(cmd, None)`). -/
def dalfox_module (w : World) (input_file outdir : String) (headers : List String) (st : St) : St :=
  let out := safe_join outdir ("dalfox_" ++ basename input_file ++ ".txt")
  tool_step w st "dalfox" outdir (addHeaders ["dalfox", "file", input_file, "-o", out, "-silent"] headers) none

/-- Model of `gf_module`: one shell invocation per pattern, each written to
its own artifact; returns the pattern-to-path table (Python returns a dict,
or `None` when gf is absent). -/
def gf_module (w : World) (input_file outdir : String) (st : St) :
    Option (List (String × String)) × St :=
  let base := splitextRoot (basename input_file)
  match ensure_tool w st "gf" outdir with
  | (false, st) => (none, st)
  | (true, st) =>
    let patterns := [("xss", base ++ "_gf_xss.txt"), ("sqli", base ++ "_gf_sqli.txt"),
                     ("redirect", base ++ "_gf_redirect.txt"), ("ssrf", base ++ "_gf_ssrf.txt")]
    let r := patterns.foldl
      (fun acc pn =>
        let out := safe_join outdir pn.2
        let st := (runCmd w acc.2 ["bash", "-lc", "cat " ++ input_file ++ " | gf " ++ pn.1 ++ " || true"] (some out)).2
        (acc.1 ++ [(pn.1, out)], st))
      (([] : List (String × String)), st)
    (some r.1, r.2)

def uro_module (w : World) (input_files : List String) (outdir : String) (st : St) : St :=
  let out := safe_join outdir ("uro_" ++ toString w.time ++ ".txt")
  tool_step w st "uro" outdir ["bash", "-lc", "cat " ++ String.intercalate " " input_files ++ " | uro || true"] (some out)

def unfurl_module (w : World) (input_file outdir : String) (st : St) : St :=
  let out := safe_join outdir ("unfurl_" ++ basename input_file ++ ".txt")
  tool_step w st "unfurl" outdir ["unfurl", "keys", "-i", input_file] (some out)

/-- Model of `httprobe_module`: the source first builds `["httprobe"]` and
then immediately replaces it with the shell pipeline actually run. -/
def httprobe_module (w : World) (input_file outdir : String) (st : St) : St :=
  let out := safe_join outdir ("httprobe_" ++ basename input_file ++ ".txt")
  tool_step w st "httprobe" outdir ["bash", "-lc", "cat " ++ input_file ++ " | httprobe -prefer-https || true"] (some out)

/-! ## Merge Engine (src/mad_recon.py lines 237-249) -/

/-- The stripped, non-blank lines of one file content, in order: the loop
body `l = l.strip(); if l: lines.add(l)` applied to every line. -/
def stripLines (content : String) : List String :=
  ((pyLines content).map pyStrip).filter (fun l => !(l = ""))

/-- The lines gathered by `merge_unique`: iterate over the sources,
silently skipping the ones that do not exist, and keep every stripped
non-blank line.  The source inserts the lines into a Python set; the model
keeps the list and deduplicates in `merge_unique`, which produces the same
sorted set. -/
def collectLines (fs : FS) (files : List String) : List String :=
  files.foldl
    (fun acc f =>
      match FS.read fs f with
      | none => acc
      | some c => acc ++ stripLines c)
    []

/-- The destination content: `for l in sorted(lines): out.write(l + "\n")`. -/
def renderLines : List String → String
  | [] => ""
  | l :: L => l ++ "\n" ++ renderLines L

/-- Model of `merge_unique` (lines 237-249): write the sorted unique
stripped non-blank lines of the existing sources to `dest`.  `sorted` on
Python strings is the lexicographic code-point order `pyLe`; `dedup` plays
the role of the Python set. -/
def merge_unique (fs : FS) (files : List String) (dest : String) : FS :=
  fs.write dest (renderLines (List.insertionSort pyLe (collectLines fs files).dedup))

/-! ## Selection filter and orchestration (lines 251-403) -/

/-- Python truthiness of the optional tool sets: `None` and the empty set
are both falsy. -/
def truthy : Option (List String) → Bool
  | none => false
  | some l => !l.isEmpty

/-- Membership test `tool in s` on an optional tool set. -/
def memS (tool : String) : Option (List String) → Bool
  | none => false
  | some l => l.contains tool

/-- The include/exclude test replicated verbatim at every guarded call site
of `run_all`:
`(not only_set or tool in only_set) and (not skip_set or tool not in skip_set)`. -/
def eligible (tool : String) (only_set skip_set : Option (List String)) : Bool :=
  (!truthy only_set || memS tool only_set) && (!truthy skip_set || !memS tool skip_set)

/-- Model of `prepare_subdomains` (lines 251-268): run the three
enumerators (unconditionally - the function takes no selection sets), then
merge their expected artifacts into the canonical subdomain artifact.  The
source runs the three modules in a thread pool; they write disjoint files,
so the sequential composition yields the same final state. -/
def prepare_subdomains (w : World) (st : St) (outdir domain : String) : String × St :=
  let st := subfinder_module w domain outdir st
  let st := assetfinder_module w domain outdir st
  let st := amass_module w domain outdir st
  let temp_files := [os_path_join outdir ("subfinder_" ++ domain ++ ".txt"),
                     os_path_join outdir ("assetfinder_" ++ domain ++ ".txt"),
                     os_path_join outdir ("amass_" ++ domain ++ ".txt")]
  let merged := os_path_join outdir ("all_subs_" ++ domain ++ ".txt")
  let st := { st with fs := merge_unique st.fs temp_files merged }
  (merged, st)

/-- Model of `prepare_urls_from_archives` (lines 270-279).  (Defined by the
source but never called from `run_all`, which re-runs the archive tools and
merges inline.) -/
def prepare_urls_from_archives (w : World) (st : St) (outdir domain : String) : String × St :=
  let st := wayback_module w domain outdir st
  let st := gau_module w domain outdir st
  let wayback := os_path_join outdir ("wayback_" ++ domain ++ ".txt")
  let gauf := os_path_join outdir ("gau_" ++ domain ++ ".txt")
  let urls_all := os_path_join outdir ("urls_all_" ++ domain ++ ".txt")
  let st := { st with fs := merge_unique st.fs [wayback, gauf] urls_all }
  (urls_all, st)

/-- The loop of the first-host extraction (lines 367-372 and 386-391):
`first_host = line.strip().split()[0]` indexes into the word list of the
line, so a blank line raises IndexError; a non-blank line always ends the
loop with its first word (which, being a non-empty word, is truthy). -/
def firstHostLoop : List String → Except String (Option String)
  | [] => Except.ok none
  | line :: rest =>
    match pyWords (pyStrip line).data with
    | [] => Except.error "list index out of range"
    | word :: _ =>
      let first_host : String := ⟨word⟩
      if first_host = "" then firstHostLoop rest else Except.ok (some first_host)

/-- First-host extraction over the chosen scan input: `first_host = None`
unless the file exists, then the loop above. -/
def first_host_of (st : St) (input_for_scans : String) : Except String (Option String) :=
  match st.fs.read input_for_scans with
  | none => Except.ok none
  | some c => firstHostLoop (pyLines c)

/-- The ffuf part of step 6 (lines 361-379). -/
def ffuf_step (w : World) (st : St) (input_for_scans outdir : String) (headers : List String) :
    Except String St :=
  let wl := "wordlists/common.txt"
  if os_path_exists st.fs wl then
    match first_host_of st input_for_scans with
    | Except.error e => Except.error e
    | Except.ok none => Except.ok st
    | Except.ok (some first_host) =>
      let url_template := rstripSlash first_host ++ "/FUZZ"
      Except.ok (ffuf_module w wl url_template outdir headers st)
  else
    Except.ok (write_file st (safe_join outdir "ffuf_missing_wordlist.txt")
      "ffuf wordlist not found at wordlists/common.txt; skipping ffuf.\n")

/-- The gobuster part of step 6 (lines 381-396). -/
def gobuster_step (w : World) (st : St) (input_for_scans outdir : String) (headers : List String) :
    Except String St :=
  let wl := "wordlists/common.txt"
  if os_path_exists st.fs wl then
    match first_host_of st input_for_scans with
    | Except.error e => Except.error e
    | Except.ok none => Except.ok st
    | Except.ok (some first_host) =>
      Except.ok (gobuster_module w wl first_host outdir headers st)
  else
    Except.ok (write_file st (safe_join outdir "gobuster_missing_wordlist.txt")
      "gobuster wordlist not found at wordlists/common.txt; skipping gobuster.\n")

/-- Step 4 of `run_all` (lines 336-353): parameter extraction and XSS
scanning from `urls_all`, guarded only by `os.path.exists(urls_all)`. -/
def extract_step (w : World) (st : St) (urls_all outdir : String) (headers : List String)
    (only_set skip_set : Option (List String)) : St :=
  if os_path_exists st.fs urls_all then
    let st :=
      if eligible "gf" only_set skip_set then
        match gf_module w urls_all outdir st with
        | (none, st) => st
        | (some gf_outputs, st) =>
          -- `if gf_outputs and "xss" in gf_outputs:`
          if gf_outputs.isEmpty then st
          else
            match gf_outputs.lookup "xss" with
            | none => st
            | some xss_file =>
              if eligible "dalfox" only_set skip_set then
                dalfox_module w xss_file outdir headers st
              else st
      else st
    let st := if eligible "uro" only_set skip_set then uro_module w [urls_all] outdir st else st
    let st := if eligible "unfurl" only_set skip_set then unfurl_module w urls_all outdir st else st
    st
  else st

/-- The fallback choice of the scan-stage input (lines 317-322): the httpx
live-host artifact is used whenever the file exists; its content is not
examined. -/
def scan_input_choice (fs : FS) (httpx_out subdomains_file : String) : String :=
  if os_path_exists fs httpx_out then httpx_out else subdomains_file

/-- Names in `outdir`, as `os.listdir(outdir)` would return them: entries
of the filesystem directly under `outdir`, with the directory prefix
removed. -/
def listdirNames (fs : FS) (outdir : String) : List String :=
  List.filterMap
    (fun e =>
      let pre := (outdir ++ "/").data
      if pre.isPrefixOf e.1.data && (e.1.data.drop pre.length).all (fun c => !(c = '/')) then
        some (⟨e.1.data.drop pre.length⟩ : String)
      else none)
    fs

/-- Final step of `run_all` (lines 398-402): write the sorted listing of
the output directory as the run index. -/
def finalize_index (st : St) (outdir : String) : St :=
  let summary := List.insertionSort pyLe (listdirNames st.fs outdir)
  write_file st (os_path_join outdir "outputs_index.txt") (String.intercalate "\n" summary)

/-- Lines 291-305 of `run_all`: katana / wayback / gau under the user
thread pool (the pool is awaited before `urls_all` is built; the three
modules write disjoint artifacts, so sequential composition yields the same
state). -/
def crawl_step (w : World) (st : St) (domain outdir : String) (headers : List String)
    (only_set skip_set : Option (List String)) : St :=
  let st := if eligible "katana" only_set skip_set then katana_module w domain outdir headers st else st
  let st := if eligible "waybackurls" only_set skip_set then wayback_module w domain outdir st else st
  let st := if eligible "gau" only_set skip_set then gau_module w domain outdir st else st
  st

/-- Lines 311-314 of `run_all`: the liveness probe. -/
def probe_step (w : World) (st : St) (subdomains_file outdir : String) (headers : List String)
    (only_set skip_set : Option (List String)) : St :=
  if eligible "httpx" only_set skip_set then httpx_module w subdomains_file outdir headers st else st

/-- Lines 324-334 of `run_all`: dnsx / naabu / nuclei over the chosen
input. -/
def scan_step (w : World) (st : St) (input_for_scans outdir : String) (headers : List String)
    (only_set skip_set : Option (List String)) : St :=
  let st := if eligible "dnsx" only_set skip_set then dnsx_module w input_for_scans outdir st else st
  let st := if eligible "naabu" only_set skip_set then naabu_module w input_for_scans outdir st else st
  let st := if eligible "nuclei" only_set skip_set then nuclei_module w input_for_scans outdir headers st else st
  st

/-- Lines 355-357 of `run_all`: httprobe over the subdomain artifact. -/
def httprobe_step (w : World) (st : St) (subdomains_file outdir : String)
    (only_set skip_set : Option (List String)) : St :=
  if eligible "httprobe" only_set skip_set then httprobe_module w subdomains_file outdir st else st

/-- Lines 359-396 of `run_all`: the two optional fuzzers. -/
def fuzz_step (w : World) (st : St) (input_for_scans outdir : String) (headers : List String)
    (only_set skip_set : Option (List String)) : Except String St :=
  match (if eligible "ffuf" only_set skip_set then ffuf_step w st input_for_scans outdir headers else Except.ok st) with
  | Except.error e => Except.error e
  | Except.ok st =>
    if eligible "gobuster" only_set skip_set then gobuster_step w st input_for_scans outdir headers
    else Except.ok st

/-- Model of `run_all` (lines 281-403), the whole pipeline.  Concurrency
inside one stage is modelled by sequential composition: the pooled modules
of a stage write disjoint artifacts and the source waits for the pool
before using them, so the final state is the same.  The result is
`Except.error` exactly when the Python function raises (the only
possibility being the IndexError of the first-host extraction). -/
def run_all (w : World) (st : St) (domain outdir : String) (headers : List String)
    (threads : Nat) (only_set skip_set : Option (List String)) : Except String St :=
  -- os.makedirs(outdir): directory creation is not modelled.
  -- threads only sizes the worker pool; it does not affect the final state.
  let _pool := threads
  -- Lines 286-288: the subfinder include/exclude test is computed and then
  -- ignored - the body of the `if` is `pass`, so nothing is skipped.
  let _dead := (truthy only_set && !memS "subfinder" only_set) ||
               (truthy skip_set && memS "subfinder" skip_set)
  -- Step 1 (line 289): unconditional.
  let r := prepare_subdomains w st outdir domain
  let subdomains_file := r.1
  let st := crawl_step w r.2 domain outdir headers only_set skip_set
  -- Lines 307-309: canonical URL artifact, merged unconditionally.
  let urls_all := os_path_join outdir ("urls_all_" ++ domain ++ ".txt")
  let archive_files := [os_path_join outdir ("wayback_" ++ domain ++ ".txt"),
                        os_path_join outdir ("gau_" ++ domain ++ ".txt")]
  let st := { st with fs := merge_unique st.fs archive_files urls_all }
  let st := probe_step w st subdomains_file outdir headers only_set skip_set
  -- Lines 316-322: scan-input fallback.
  let httpx_out := safe_join outdir ("httpx_live_" ++ basename subdomains_file ++ ".txt")
  let input_for_scans := scan_input_choice st.fs httpx_out subdomains_file
  let st := scan_step w st input_for_scans outdir headers only_set skip_set
  -- Lines 336-353: extraction.
  let st := extract_step w st urls_all outdir headers only_set skip_set
  let st := httprobe_step w st subdomains_file outdir only_set skip_set
  -- Lines 359-396: fuzzers.
  match fuzz_step w st input_for_scans outdir headers only_set skip_set with
  | Except.error e => Except.error e
  | Except.ok st =>
    -- Lines 398-403.
    Except.ok (finalize_index st outdir)

/-! ## Observables and concrete run configurations used by the theorems -/

/-- The character at index `n` (used to separate artifact path families). -/
def headCharN (s : String) (n : Nat) : Option Char := (s.data.drop n).head?

/-- True when the string contains no slash (a domain name in normal use). -/
def noSlash (s : String) : Bool := s.data.all (fun c => !(c = '/'))

/-- The trace of a finished run (empty when the run raised). -/
def resultTrace (r : Except String St) : List (List String) :=
  match r with
  | Except.ok st => st.tr
  | Except.error _ => []

/-- Read one artifact of a finished run. -/
def resultRead (r : Except String St) (p : String) : Option String :=
  match r with
  | Except.ok st => st.fs.read p
  | Except.error _ => none

/-- The uncaught exception of a run, when there is one. -/
def resultErr (r : Except String St) : Option String :=
  match r with
  | Except.ok _ => none
  | Except.error e => some e

/-- A world where every tool is installed and every process succeeds with
empty stdout and stderr. -/
def wEmptyOut : World := ⟨fun _ => true, fun _ => ProcResult.ok "" "" 0, 0⟩

/-- A world where only subfinder is installed and every spawned process
prints one subdomain. -/
def wSubOnly : World := ⟨fun t => t == "subfinder", fun _ => ProcResult.ok "sub.example.com\n" "" 0, 0⟩

/-- A world with no tool installed. -/
def wNoTools : World := ⟨fun _ => false, fun _ => ProcResult.ok "" "" 0, 0⟩

/-- A world where every tool is installed but every spawn raises. -/
def wSpawnFail : World := ⟨fun _ => true, fun _ => ProcResult.exn "permission denied", 0⟩

/-- A world where only dnsx is installed and every spawn raises. -/
def wPartial : World := ⟨fun t => t == "dnsx", fun _ => ProcResult.exn "permission denied", 0⟩

/-- A world where only uro is installed and every process prints nothing. -/
def wUro : World := ⟨fun t => t == "uro", fun _ => ProcResult.ok "" "" 0, 0⟩

/-- An initial filesystem holding a fuzz wordlist and a pre-existing
live-host artifact whose first line is blank. -/
def fsBlankFirstLine : FS :=
  [("wordlists/common.txt", "wordlist"),
   ("outputs/httpx_live_all_subs_example.com.txt.txt", "\nfoo\n")]

/-! ## Basic lemmas: filesystem reads and writes -/

theorem FS.read_write_self (fs : FS) (p c : String) : (fs.write p c).read p = some c := by
  simp [FS.read, FS.write, List.lookup]

theorem lookup_filter_ne (q p : String) (h : q ≠ p) (l : List (String × String)) :
    List.lookup q (List.filter (fun e => !(e.1 = p)) l) = List.lookup q l := by
  induction l with
  | nil => rfl
  | cons e es ih =>
    by_cases hep : e.1 = p
    · have hqp : (q == p) = false := by simp [h]
      simp [List.filter, hep, List.lookup, hqp, ih]
    · simp only [List.filter, List.lookup]
      by_cases hqe : q = e.1
      · simp [hep, hqe, List.lookup]
      · have hq : (q == e.1) = false := by simp [hqe]
        simp [hep, List.lookup, hq, ih]

theorem FS.read_write_ne {fs : FS} {p q c : String} (h : q ≠ p) :
    (fs.write p c).read q = fs.read q := by
  have hq : (q == p) = false := by simp [h]
  simp [FS.read, FS.write, List.lookup, hq, lookup_filter_ne q p h]

theorem os_path_exists_write_ne {fs : FS} {p q c : String} (h : q ≠ p) :
    os_path_exists (fs.write p c) q = os_path_exists fs q := by
  simp [os_path_exists, FS.read_write_ne h]

/-! ## String disequality helpers

The artifact paths of a run are parametric in the domain and output
directory; the following helpers discharge path disequalities by looking at
a single character position or at lengths, which is enough because the
artifact names differ in their constant prefixes. -/

theorem ne_of_nth {a b : String} (n : Nat) {c c2 : Char}
    (ha : headCharN a n = some c) (hb : headCharN b n = some c2) (hcc : c ≠ c2) : a ≠ b := by
  intro he
  subst he
  rw [ha] at hb
  exact hcc (Option.some.inj hb)

theorem ne_of_length {a b : String} (h : a.length ≠ b.length) : a ≠ b := by
  intro he
  exact h (by rw [he])

theorem os_path_join_ne (d : String) {a b : String} (h : a ≠ b) :
    os_path_join d a ≠ os_path_join d b := by
  intro he
  apply h
  have hd := congrArg String.data he
  simp only [os_path_join, String.data_append] at hd
  exact String.ext (List.append_cancel_left hd)

/-! ## Lemmas about `runCmd`, `ensure_tool` and `tool_step` -/

theorem runCmd_tr (w : World) (st : St) (cmd : List String) (op : Option String) :
    ((runCmd w st cmd op).2).tr = st.tr ++ [cmd] := by
  unfold runCmd
  cases w.exec cmd <;> cases op <;> simp

theorem runCmd_tr_mono {w : World} {st : St} {cmd : List String} {op : Option String}
    {x : List String} (hx : x ∈ st.tr) : x ∈ ((runCmd w st cmd op).2).tr := by
  rw [runCmd_tr]
  exact List.mem_append_left _ hx

theorem runCmd_read_ne {w : World} {st : St} {cmd : List String} {out p : String}
    (h : p ≠ out) :
    ((runCmd w st cmd (some out)).2).fs.read p = st.fs.read p := by
  unfold runCmd
  cases w.exec cmd <;> simp [FS.read_write_ne h]

theorem runCmd_none_fs {w : World} {st : St} {cmd : List String} :
    ((runCmd w st cmd none).2).fs = st.fs := by
  unfold runCmd
  cases w.exec cmd <;> simp

theorem runCmd_read_self {w : World} {st : St} {cmd : List String} {out : String} :
    (((runCmd w st cmd (some out)).2).fs.read out).isSome = true := by
  unfold runCmd
  cases w.exec cmd <;> simp [FS.read_write_self]

theorem ensure_tool_tr {w : World} {st : St} {tool outdir : String} :
    ((ensure_tool w st tool outdir).2).tr = st.tr := by
  unfold ensure_tool
  split <;> simp [write_file]

theorem ensure_tool_read_ne {w : World} {st : St} {tool outdir p : String}
    (h : p ≠ os_path_join outdir (tool ++ "_missing.txt")) :
    ((ensure_tool w st tool outdir).2).fs.read p = st.fs.read p := by
  unfold ensure_tool
  split
  · rfl
  · simp [write_file, FS.read_write_ne h]

theorem ensure_tool_installed {w : World} {st : St} {tool outdir : String}
    (hw : w.installed tool = true) :
    ensure_tool w st tool outdir = (true, st) := by
  simp [ensure_tool, which, hw]

theorem ensure_tool_absent {w : World} {st : St} {tool outdir : String}
    (hw : w.installed tool = false) :
    ensure_tool w st tool outdir =
      (false, write_file st (os_path_join outdir (tool ++ "_missing.txt")) (missingMsg tool)) := by
  simp [ensure_tool, which, hw]

theorem tool_step_read_ne_some {w : World} {st : St} {tool outdir : String}
    {cmd : List String} {out p : String}
    (h1 : p ≠ out) (h2 : p ≠ os_path_join outdir (tool ++ "_missing.txt")) :
    (tool_step w st tool outdir cmd (some out)).fs.read p = st.fs.read p := by
  unfold tool_step
  have hmarker : ((ensure_tool w st tool outdir).2).fs.read p = st.fs.read p :=
    ensure_tool_read_ne h2
  split
  next st2 heq => rw [heq] at hmarker; exact hmarker
  next st2 heq =>
    rw [runCmd_read_ne h1]
    rw [heq] at hmarker
    exact hmarker

theorem tool_step_read_ne_none {w : World} {st : St} {tool outdir : String}
    {cmd : List String} {p : String}
    (h2 : p ≠ os_path_join outdir (tool ++ "_missing.txt")) :
    (tool_step w st tool outdir cmd none).fs.read p = st.fs.read p := by
  unfold tool_step
  have hmarker : ((ensure_tool w st tool outdir).2).fs.read p = st.fs.read p :=
    ensure_tool_read_ne h2
  split
  next st2 heq => rw [heq] at hmarker; exact hmarker
  next st2 heq =>
    rw [runCmd_none_fs]
    rw [heq] at hmarker
    exact hmarker

theorem tool_step_tr_mono {w : World} {st : St} {tool outdir : String}
    {cmd : List String} {op : Option String} {x : List String} (hx : x ∈ st.tr) :
    x ∈ (tool_step w st tool outdir cmd op).tr := by
  unfold tool_step
  have htr : ((ensure_tool w st tool outdir).2).tr = st.tr := ensure_tool_tr
  split
  next st2 heq => rw [heq] at htr; rw [htr]; exact hx
  next st2 heq =>
    rw [runCmd_tr w st2 cmd op]
    rw [heq] at htr
    rw [htr]
    exact List.mem_append_left _ hx

/-- When the tool is installed, its command line is recorded. -/
theorem tool_step_tr_self {w : World} (st : St) {tool : String} (outdir : String)
    (cmd : List String) (op : Option String) (hw : w.installed tool = true) :
    cmd ∈ (tool_step w st tool outdir cmd op).tr := by
  unfold tool_step
  rw [ensure_tool_installed hw]
  simp only
  rw [runCmd_tr w st cmd op]
  exact List.mem_append_right _ (List.mem_singleton.mpr rfl)

/-- When the tool is installed and an output path is given, the artifact
file exists afterwards (whatever the process did). -/
theorem tool_step_creates {w : World} (st : St) {tool : String} (outdir : String)
    (cmd : List String) (out : String) (hw : w.installed tool = true) :
    ((tool_step w st tool outdir cmd (some out)).fs.read out).isSome = true := by
  unfold tool_step
  rw [ensure_tool_installed hw]
  simp only
  exact runCmd_read_self

/-- When the tool is absent, `tool_step` only writes the marker. -/
theorem tool_step_absent {w : World} (st : St) {tool : String} (outdir : String)
    (cmd : List String) (op : Option String) (hw : w.installed tool = false) :
    tool_step w st tool outdir cmd op =
      write_file st (os_path_join outdir (tool ++ "_missing.txt")) (missingMsg tool) := by
  unfold tool_step
  rw [ensure_tool_absent hw]

theorem merge_unique_read_ne {fs : FS} {files : List String} {dest p : String}
    (h : p ≠ dest) :
    (merge_unique fs files dest).read p = fs.read p := by
  unfold merge_unique
  exact FS.read_write_ne h

theorem write_file_read_ne {st : St} {path content p : String} (h : p ≠ path) :
    (write_file st path content).fs.read p = st.fs.read p := by
  simp [write_file, FS.read_write_ne h]

theorem write_file_tr (st : St) (path content : String) :
    (write_file st path content).tr = st.tr := rfl

/-! ## Lemmas about the Merge Engine -/

theorem collectLines_go (fs : FS) (files : List String) (acc : List String) (x : String) :
    x ∈ files.foldl
      (fun acc f => match FS.read fs f with | none => acc | some c => acc ++ stripLines c)
      acc ↔
    x ∈ acc ∨ ∃ f ∈ files, ∃ c, FS.read fs f = some c ∧ x ∈ stripLines c := by
  induction files generalizing acc with
  | nil => simp
  | cons f rest ih =>
    simp only [List.foldl_cons]
    rw [ih]
    cases hf : FS.read fs f with
    | none =>
      constructor
      · rintro (hx | ⟨g, hg, c, hc, hxc⟩)
        · exact Or.inl hx
        · exact Or.inr ⟨g, List.mem_cons_of_mem _ hg, c, hc, hxc⟩
      · rintro (hx | ⟨g, hg, c, hc, hxc⟩)
        · exact Or.inl hx
        · rcases List.mem_cons.mp hg with rfl | hg2
          · rw [hf] at hc; cases hc
          · exact Or.inr ⟨g, hg2, c, hc, hxc⟩
    | some c0 =>
      constructor
      · rintro (hx | ⟨g, hg, c, hc, hxc⟩)
        · rcases List.mem_append.mp hx with hx | hx0
          · exact Or.inl hx
          · exact Or.inr ⟨f, List.mem_cons_self _ _, c0, hf, hx0⟩
        · exact Or.inr ⟨g, List.mem_cons_of_mem _ hg, c, hc, hxc⟩
      · rintro (hx | ⟨g, hg, c, hc, hxc⟩)
        · exact Or.inl (List.mem_append_left _ hx)
        · rcases List.mem_cons.mp hg with rfl | hg2
          · rw [hf] at hc
            exact Or.inl (List.mem_append_right _ (by rw [Option.some.inj hc]; exact hxc))
          · exact Or.inr ⟨g, hg2, c, hc, hxc⟩

theorem collectLines_mem (fs : FS) (files : List String) (x : String) :
    x ∈ collectLines fs files ↔
      ∃ f ∈ files, ∃ c, FS.read fs f = some c ∧ x ∈ stripLines c := by
  unfold collectLines
  rw [collectLines_go]
  simp

theorem dropWhile_head_false {α : Type} (P : α → Bool) :
    ∀ {l : List α} {a : α} {t : List α}, l.dropWhile P = a :: t → P a = false := by
  intro l
  induction l with
  | nil => intro a t h; cases h
  | cons b bs ih =>
    intro a t h
    rw [List.dropWhile_cons] at h
    by_cases hb : P b = true
    · rw [if_pos hb] at h; exact ih h
    · rw [if_neg hb] at h
      cases h
      simp only [Bool.not_eq_true] at hb
      exact hb

theorem dropWhile_idem {α : Type} (P : α → Bool) (l : List α) :
    (l.dropWhile P).dropWhile P = l.dropWhile P := by
  cases h : l.dropWhile P with
  | nil => rfl
  | cons a t =>
    have ha := dropWhile_head_false P h
    simp [List.dropWhile_cons, ha]

theorem stripChars_idem (cs : List Char) : stripChars (stripChars cs) = stripChars cs := by
  unfold stripChars
  have hA : ∀ v : List Char, v = (cs.dropWhile isPySpace).reverse.dropWhile isPySpace →
      v.reverse.dropWhile isPySpace = v.reverse := by
    intro v hv
    cases hvr : v.reverse with
    | nil => simp
    | cons a t =>
      have hvne : v ≠ [] := by
        intro h0; rw [h0] at hvr; cases hvr
      have hva : v.getLast? = some a := by
        rw [← List.head?_reverse, hvr]; rfl
      have hsplit : (cs.dropWhile isPySpace).reverse.takeWhile isPySpace ++ v =
          (cs.dropWhile isPySpace).reverse := by
        rw [hv]; exact List.takeWhile_append_dropWhile _ _
      have hlast : (cs.dropWhile isPySpace).reverse.getLast? = some a := by
        rw [← hsplit, List.getLast?_append_of_ne_nil _ hvne, hva]
      have hhead : (cs.dropWhile isPySpace).head? = some a := by
        rw [← List.getLast?_reverse]; exact hlast
      have hPa : isPySpace a = false := by
        cases hu0 : cs.dropWhile isPySpace with
        | nil => rw [hu0] at hhead; cases hhead
        | cons b bs =>
          rw [hu0] at hhead
          cases hhead
          exact dropWhile_head_false isPySpace hu0
      simp [List.dropWhile_cons, hPa]
  have hB : ((cs.dropWhile isPySpace).reverse.dropWhile isPySpace).dropWhile isPySpace =
      (cs.dropWhile isPySpace).reverse.dropWhile isPySpace :=
    dropWhile_idem isPySpace _
  rw [hA _ rfl, List.reverse_reverse, hB]

theorem pyStrip_idem (s : String) : pyStrip (pyStrip s) = pyStrip s := by
  show (⟨stripChars (stripChars s.data)⟩ : String) = ⟨stripChars s.data⟩
  rw [stripChars_idem]

theorem mem_stripChars {c : Char} {l : List Char} (h : c ∈ stripChars l) : c ∈ l := by
  unfold stripChars at h
  rw [List.mem_reverse] at h
  have h2 := (List.dropWhile_sublist _).subset h
  rw [List.mem_reverse] at h2
  exact (List.dropWhile_sublist _).subset h2

theorem splitChars_ne_nil (cs : List Char) : splitChars cs ≠ [] := by
  induction cs with
  | nil => simp [splitChars]
  | cons c rest ih =>
    by_cases hc : c = '\n'
    · simp [splitChars, hc]
    · cases hr : splitChars rest with
      | nil => simp [splitChars, hc, hr]
      | cons h t => simp [splitChars, hc, hr]

theorem splitChars_no_nl : ∀ (cs : List Char), ∀ l ∈ splitChars cs, '\n' ∉ l := by
  intro cs
  induction cs with
  | nil =>
    intro l hl
    simp only [splitChars, List.mem_singleton] at hl
    subst hl
    simp
  | cons c rest ih =>
    intro l hl
    by_cases hc : c = '\n'
    · simp only [splitChars, if_pos hc] at hl
      rcases List.mem_cons.mp hl with rfl | hl2
      · simp
      · exact ih l hl2
    · cases hr : splitChars rest with
      | nil => exact absurd hr (splitChars_ne_nil rest)
      | cons h t =>
        simp only [splitChars, if_neg hc, hr] at hl
        rcases List.mem_cons.mp hl with rfl | hlt
        · intro hmem
          rcases List.mem_cons.mp hmem with heq | hmemh
          · exact hc heq.symm
          · exact ih h (hr ▸ List.mem_cons_self h t) hmemh
        · exact ih l (hr ▸ List.mem_cons_of_mem h hlt)

theorem splitChars_append (l rest : List Char) (hl : '\n' ∉ l) :
    splitChars (l ++ '\n' :: rest) = l :: splitChars rest := by
  induction l with
  | nil => simp [splitChars]
  | cons c cst ih =>
    have hc : ¬(c = '\n') := by
      intro h
      exact hl (by rw [h]; exact List.mem_cons_self _ _)
    have hl2 : '\n' ∉ cst := fun h => hl (List.mem_cons_of_mem _ h)
    rw [List.cons_append]
    simp only [splitChars, if_neg hc, ih hl2]

theorem renderLines_cons_data (l : String) (L : List String) :
    (renderLines (l :: L)).data = l.data ++ '\n' :: (renderLines L).data := by
  show ((l ++ "\n") ++ renderLines L).data = _
  rw [String.data_append, String.data_append]
  have h1 : ("\n" : String).data = ['\n'] := rfl
  rw [h1, List.append_assoc]
  rfl

theorem splitChars_render (L : List String) (h : ∀ l ∈ L, '\n' ∉ l.data) :
    splitChars (renderLines L).data = L.map String.data ++ [[]] := by
  induction L with
  | nil => rfl
  | cons l L ih =>
    rw [renderLines_cons_data,
        splitChars_append _ _ (h l (List.mem_cons_self _ _)),
        ih (fun x hx => h x (List.mem_cons_of_mem _ hx))]
    rfl

theorem pyLines_render (L : List String) (h : ∀ l ∈ L, '\n' ∉ l.data) :
    pyLines (renderLines L) = L := by
  simp only [pyLines]
  rw [splitChars_render L h]
  have hcond : (L.map String.data ++ [[]]).getLast? = some ([] : List Char) :=
    List.getLast?_concat _
  rw [if_pos hcond, List.dropLast_concat, List.map_map]
  conv_rhs => rw [← List.map_id L]
  exact List.map_congr_left fun x _ => rfl

theorem stripLines_render (L : List String)
    (h : ∀ l ∈ L, pyStrip l = l ∧ ¬(l = "") ∧ '\n' ∉ l.data) :
    stripLines (renderLines L) = L := by
  unfold stripLines
  rw [pyLines_render L (fun l hl => (h l hl).2.2)]
  rw [List.map_congr_left (fun l hl => (h l hl).1), List.map_id']
  rw [List.filter_eq_self.mpr (fun l hl => by simp [(h l hl).2.1])]

theorem mem_stripLines_props {x c : String} (hx : x ∈ stripLines c) :
    pyStrip x = x ∧ ¬(x = "") ∧ '\n' ∉ x.data := by
  unfold stripLines at hx
  rw [List.mem_filter] at hx
  obtain ⟨hmap, hne⟩ := hx
  rw [List.mem_map] at hmap
  obtain ⟨y, hy, hxy⟩ := hmap
  refine ⟨by rw [← hxy]; exact pyStrip_idem y, by simpa using hne, ?_⟩
  intro hnl
  have hxd : x.data = stripChars y.data := by rw [← hxy]; rfl
  rw [hxd] at hnl
  have h2 : ('\n' : Char) ∈ y.data := mem_stripChars hnl
  simp only [pyLines] at hy
  have hy2 : ∃ l ∈ splitChars c.data, y = (⟨l⟩ : String) := by
    split at hy
    · rw [List.mem_map] at hy
      obtain ⟨l, hl, hyl⟩ := hy
      exact ⟨l, (List.dropLast_sublist _).subset hl, hyl.symm⟩
    · rw [List.mem_map] at hy
      obtain ⟨l, hl, hyl⟩ := hy
      exact ⟨l, hl, hyl.symm⟩
  obtain ⟨l, hl, hyl⟩ := hy2
  have hld : y.data = l := by rw [hyl]
  exact splitChars_no_nl c.data l hl (hld ▸ h2)

theorem mem_collectLines_props (fs : FS) (files : List String) {x : String}
    (hx : x ∈ collectLines fs files) :
    pyStrip x = x ∧ ¬(x = "") ∧ '\n' ∉ x.data := by
  rw [collectLines_mem] at hx
  obtain ⟨f, _, c, _, hxc⟩ := hx
  exact mem_stripLines_props hxc

theorem lexLe_refl : ∀ as : List Char, lexLe as as = true := by
  intro as
  induction as with
  | nil => rfl
  | cons a t ih => simp [lexLe, ih]

theorem lexLe_total : ∀ as bs : List Char, lexLe as bs = true ∨ lexLe bs as = true := by
  intro as
  induction as with
  | nil => intro bs; left; rfl
  | cons a t ih =>
    intro bs
    cases bs with
    | nil => right; rfl
    | cons b bt =>
      by_cases hab : a = b
      · subst hab
        rcases ih bt with h | h
        · left; simp [lexLe, h]
        · right; simp [lexLe, h]
      · rcases lt_trichotomy a b with hlt | heq | hgt
        · left; simp [lexLe, hab, hlt]
        · exact absurd heq hab
        · right
          have hba : ¬(b = a) := fun h => hab h.symm
          simp [lexLe, hba, hgt]

theorem lexLe_antisymm : ∀ as bs : List Char,
    lexLe as bs = true → lexLe bs as = true → as = bs := by
  intro as
  induction as with
  | nil =>
    intro bs h1 h2
    cases bs with
    | nil => rfl
    | cons b bt => exact absurd h2 (by simp [lexLe])
  | cons a t ih =>
    intro bs h1 h2
    cases bs with
    | nil => exact absurd h1 (by simp [lexLe])
    | cons b bt =>
      by_cases hab : a = b
      · subst hab
        simp only [lexLe, if_pos rfl] at h1 h2
        rw [ih bt h1 h2]
      · have hba : ¬(b = a) := fun h => hab h.symm
        simp only [lexLe, if_neg hab, decide_eq_true_eq] at h1
        simp only [lexLe, if_neg hba, decide_eq_true_eq] at h2
        exact absurd h2 (lt_asymm h1)

theorem lexLe_trans : ∀ as bs cs : List Char,
    lexLe as bs = true → lexLe bs cs = true → lexLe as cs = true := by
  intro as
  induction as with
  | nil => intro bs cs h1 h2; rfl
  | cons a t ih =>
    intro bs cs h1 h2
    cases bs with
    | nil => exact absurd h1 (by simp [lexLe])
    | cons b bt =>
      cases cs with
      | nil => exact absurd h2 (by simp [lexLe])
      | cons c ct =>
        by_cases hab : a = b <;> by_cases hbc : b = c
        · subst hab; subst hbc
          simp only [lexLe, if_pos rfl] at h1 h2 ⊢
          exact ih bt ct h1 h2
        · subst hab
          simp only [lexLe, if_neg hbc, decide_eq_true_eq] at h2
          simp only [lexLe, if_neg hbc, decide_eq_true_eq]
          exact h2
        · subst hbc
          simp only [lexLe, if_neg hab, decide_eq_true_eq] at h1
          simp only [lexLe, if_neg hab, decide_eq_true_eq]
          exact h1
        · simp only [lexLe, if_neg hab, decide_eq_true_eq] at h1
          simp only [lexLe, if_neg hbc, decide_eq_true_eq] at h2
          have hac : a < c := lt_trans h1 h2
          have hne : ¬(a = c) := ne_of_lt hac
          simp [lexLe, hne, hac]

instance : IsTotal String pyLe := ⟨fun a b => lexLe_total a.data b.data⟩

instance : IsTrans String pyLe := ⟨fun _ _ _ h1 h2 => lexLe_trans _ _ _ h1 h2⟩

instance : IsAntisymm String pyLe := ⟨fun _ _ h1 h2 => String.ext (lexLe_antisymm _ _ h1 h2)⟩

theorem mem_sortedLines (fs : FS) (files : List String) (x : String) :
    x ∈ List.insertionSort pyLe (collectLines fs files).dedup ↔
      x ∈ collectLines fs files := by
  rw [(List.perm_insertionSort pyLe _).mem_iff, List.mem_dedup]

theorem sort_collect_props (fs : FS) (files : List String) :
    ∀ l ∈ List.insertionSort pyLe (collectLines fs files).dedup,
      pyStrip l = l ∧ ¬(l = "") ∧ '\n' ∉ l.data :=
  fun l hl => mem_collectLines_props fs files ((mem_sortedLines fs files l).mp hl)

theorem sorted_dedup_congr {A B : List String} (h : ∀ x, x ∈ A ↔ x ∈ B) :
    List.insertionSort pyLe A.dedup = List.insertionSort pyLe B.dedup := by
  apply List.eq_of_perm_of_sorted ?_ (List.sorted_insertionSort pyLe _)
    (List.sorted_insertionSort pyLe _)
  have hA := List.perm_insertionSort pyLe A.dedup
  have hB := List.perm_insertionSort pyLe B.dedup
  have hAB : A.dedup.Perm B.dedup := by
    refine (List.perm_ext_iff_of_nodup (List.nodup_dedup A) (List.nodup_dedup B)).mpr ?_
    intro a
    rw [List.mem_dedup, List.mem_dedup]
    exact h a
  exact hA.trans (hAB.trans hB.symm)

theorem collectLines_write_dest (fs : FS) (files : List String) (dest : String) :
    ∀ x,
      x ∈ collectLines
        (fs.write dest (renderLines (List.insertionSort pyLe (collectLines fs files).dedup)))
        files ↔
      x ∈ collectLines fs files := by
  intro x
  rw [collectLines_mem, collectLines_mem]
  constructor
  · rintro ⟨f, hf, c, hc, hxc⟩
    by_cases hfd : f = dest
    · subst hfd
      rw [FS.read_write_self] at hc
      rw [← Option.some.inj hc] at hxc
      rw [stripLines_render _ (sort_collect_props fs files)] at hxc
      rw [mem_sortedLines] at hxc
      rw [collectLines_mem] at hxc
      exact hxc
    · rw [FS.read_write_ne hfd] at hc
      exact ⟨f, hf, c, hc, hxc⟩
  · rintro ⟨f, hf, c, hc, hxc⟩
    by_cases hfd : f = dest
    · have hxS : x ∈ collectLines fs files :=
        (collectLines_mem _ _ _).mpr ⟨f, hf, c, hc, hxc⟩
      refine ⟨f, hf,
        renderLines (List.insertionSort pyLe (collectLines fs files).dedup), ?_, ?_⟩
      · rw [hfd]; exact FS.read_write_self _ _ _
      · rw [stripLines_render _ (sort_collect_props fs files), mem_sortedLines]
        exact hxS
    · refine ⟨f, hf, c, ?_, hxc⟩
      rw [FS.read_write_ne hfd]
      exact hc

theorem collectLines_none (fs : FS) (files : List String)
    (h : ∀ f ∈ files, FS.read fs f = none) :
    collectLines fs files = [] := by
  unfold collectLines
  induction files with
  | nil => rfl
  | cons f rest ih =>
    simp only [List.foldl_cons]
    rw [h f (List.mem_cons_self _ _)]
    exact ih (fun g hg => h g (List.mem_cons_of_mem _ hg))

/-! ## Claim C5: semantics of the Merge Engine -/

/-- Claim C5: for every list of source paths and destination path,
`merge_unique` reads only the sources that exist (nonexistent ones are
skipped and never make the merge fail - the characterisation below only
mentions sources with `FS.read fs f = some c`), strips surrounding
whitespace from each line (`stripLines` is stripping plus the blank-line
filter), discards empty lines, and writes the destination as the
deduplicated (`Nodup`) set of remaining lines in ascending lexicographic
order (`Sorted pyLe`, the code-point order Python `sorted` uses),
one per line, newline-terminated with no trailing blank line
(`renderLines` appends exactly one newline per line and nothing else);
no other path is touched. -/
theorem merge_unique_spec (fs : FS) (files : List String) (dest : String) :
    ∃ L : List String,
      (merge_unique fs files dest).read dest = some (renderLines L) ∧
      L.Sorted pyLe ∧
      L.Nodup ∧
      (∀ x, x ∈ L ↔ ∃ f ∈ files, ∃ c, FS.read fs f = some c ∧ x ∈ stripLines c) ∧
      (∀ x ∈ L, ¬(x = "")) ∧
      (∀ p, p ≠ dest → (merge_unique fs files dest).read p = fs.read p) := by
  refine ⟨List.insertionSort pyLe (collectLines fs files).dedup, ?_, ?_, ?_, ?_, ?_, ?_⟩
  · unfold merge_unique
    exact FS.read_write_self _ _ _
  · exact List.sorted_insertionSort pyLe _
  · exact (List.perm_insertionSort pyLe _).nodup_iff.mpr (List.nodup_dedup _)
  · intro x
    rw [mem_sortedLines, collectLines_mem]
  · intro x hx
    exact (sort_collect_props fs files x hx).2.1
  · intro p hp
    exact merge_unique_read_ne hp

/-- Witness for C5 at a concrete input. -/
theorem merge_unique_spec_witness :
    ∃ L : List String,
      (merge_unique [("a", "b\na\n\n b \n")] ["a", "nope"] "d").read "d" = some (renderLines L) ∧
      L.Sorted pyLe ∧
      L.Nodup ∧
      (∀ x, x ∈ L ↔ ∃ f ∈ ["a", "nope"], ∃ c,
        FS.read [("a", "b\na\n\n b \n")] f = some c ∧ x ∈ stripLines c) ∧
      (∀ x ∈ L, ¬(x = "")) ∧
      (∀ p, p ≠ "d" →
        (merge_unique [("a", "b\na\n\n b \n")] ["a", "nope"] "d").read p =
          FS.read [("a", "b\na\n\n b \n")] p) :=
  merge_unique_spec [("a", "b\na\n\n b \n")] ["a", "nope"] "d"

/-! ## Claim C8: idempotence of the Merge Engine -/

/-- Claim C8: merging the same sources into the same destination a second
time yields byte-identical destination content.  This holds with no side
condition: even when the destination is itself among the sources, re-reading
the first merge result adds no new line (its lines are exactly the merged
set, already stripped and non-blank). -/
theorem merge_unique_idempotent (fs : FS) (files : List String) (dest : String) :
    (merge_unique (merge_unique fs files dest) files dest).read dest =
      (merge_unique fs files dest).read dest := by
  unfold merge_unique
  rw [sorted_dedup_congr (collectLines_write_dest fs files dest)]
  rw [FS.read_write_self, FS.read_write_self]

/-- Witness for C8 at a concrete input in which the destination is even one
of the sources. -/
theorem merge_unique_idempotent_witness :
    (merge_unique (merge_unique [("a", "x\ny\n")] ["a", "d"] "d") ["a", "d"] "d").read "d" =
      (merge_unique [("a", "x\ny\n")] ["a", "d"] "d").read "d" :=
  merge_unique_idempotent [("a", "x\ny\n")] ["a", "d"] "d"

/-! ## Claim C4: the Tool Adapter absorbs all per-invocation failures -/

/-- Claim C4: the Tool Adapter never raises past its own boundary.  When the
executable is absent, `ensure_tool` writes the `<tool>_missing.txt` marker
artifact, returns false (the `ToolAbsent` outcome) and runs nothing (the
spawn trace is untouched; the returned state differs from the input state
only by the marker file).  When the process spawn raises, `runCmd` absorbs
the exception, writes a diagnostic line to the artifact and returns
`("", str(e), 1)` (the `ExecutionError` outcome).  Both model functions are
total, which is the embedded form of "every call returns normally and the
pipeline continues". -/
theorem adapter_absorbs_failures (w : World) (st : St) (tool outdir : String)
    (cmd : List String) (p e : String) :
    (w.installed tool = false →
      ensure_tool w st tool outdir =
        (false, write_file st (os_path_join outdir (tool ++ "_missing.txt")) (missingMsg tool)) ∧
      ((ensure_tool w st tool outdir).2).tr = st.tr) ∧
    (w.exec cmd = ProcResult.exn e →
      runCmd w st cmd (some p) =
        (("", e, 1),
          ⟨st.fs.write p ("Error executing command " ++ cmdRepr cmd ++ ": " ++ e ++ "\n"),
           st.tr ++ [cmd]⟩)) := by
  constructor
  · intro hw
    exact ⟨ensure_tool_absent hw, ensure_tool_tr⟩
  · intro hex
    unfold runCmd
    rw [hex]

/-- Witness for C4: a world where dnsx alone is installed and every spawn
raises; subfinder is reported absent with its marker, and a dnsx spawn
failure is converted into a diagnostic artifact and a normal return. -/
theorem adapter_absorbs_failures_witness :
    (ensure_tool wPartial ⟨[], []⟩ "subfinder" "outputs" =
        (false, write_file ⟨[], []⟩ (os_path_join "outputs" ("subfinder" ++ "_missing.txt"))
          (missingMsg "subfinder")) ∧
      ((ensure_tool wPartial ⟨[], []⟩ "subfinder" "outputs").2).tr = ([] : List (List String))) ∧
    (runCmd wPartial ⟨[], []⟩ ["dnsx", "-l", "subs.txt", "-silent"] (some "outputs/dnsx.txt") =
        (("", "permission denied", 1),
          ⟨FS.write [] "outputs/dnsx.txt"
            ("Error executing command " ++ cmdRepr ["dnsx", "-l", "subs.txt", "-silent"] ++
              ": " ++ "permission denied" ++ "\n"),
           [] ++ [["dnsx", "-l", "subs.txt", "-silent"]]⟩)) :=
  ⟨(adapter_absorbs_failures wPartial ⟨[], []⟩ "subfinder" "outputs"
      ["dnsx", "-l", "subs.txt", "-silent"] "outputs/dnsx.txt" "permission denied").1 rfl,
   (adapter_absorbs_failures wPartial ⟨[], []⟩ "subfinder" "outputs"
      ["dnsx", "-l", "subs.txt", "-silent"] "outputs/dnsx.txt" "permission denied").2 rfl⟩

/-! ## Claim C10: an invocation of a present tool always creates its artifact -/

/-- Claim C10: when the tool is present and the process exits with empty
stdout and empty stderr, the adapter still creates the artifact file - as a
zero-byte file - so existence of an artifact never implies the tool
produced output. -/
theorem adapter_creates_empty_artifact (w : World) (st : St) (cmd : List String)
    (p : String) (rc : Int) (h : w.exec cmd = ProcResult.ok "" "" rc) :
    ((runCmd w st cmd (some p)).2).fs.read p = some "" := by
  unfold runCmd
  rw [h]
  simp [FS.read_write_self]

/-- Witness for C10 at a concrete world whose processes print nothing. -/
theorem adapter_creates_empty_artifact_witness :
    ((runCmd wEmptyOut ⟨[], []⟩ ["subfinder", "-d", "example.com", "-silent"]
        (some "outputs/subfinder_example.com.txt")).2).fs.read
      "outputs/subfinder_example.com.txt" = some "" :=
  adapter_creates_empty_artifact wEmptyOut ⟨[], []⟩ _ _ 0 rfl

/-! ## Claims C2 and C3: the stage-1 selection filter is dead code -/

/-- Claim C2 (code-bug evaluation): with includeSet = {nuclei} and no
excludes, the stage-1 enumerators still run - the include/exclude test of
lines 286-288 is computed and its body is `pass`, and `prepare_subdomains`
is then called unconditionally.  In a world where only subfinder is
installed, the run both spawns subfinder and writes the assetfinder absence
marker, although neither tool is in the include set; this contradicts
"every other tool's step is entirely skipped (no artifact, no marker)". -/
theorem include_set_stage1_bug :
    (resultTrace (run_all wSubOnly ⟨[], []⟩ "example.com" "outputs" [] 8 (some ["nuclei"]) none)).contains
        ["subfinder", "-d", "example.com", "-silent"] = true ∧
    resultRead (run_all wSubOnly ⟨[], []⟩ "example.com" "outputs" [] 8 (some ["nuclei"]) none)
        (os_path_join "outputs" "assetfinder_missing.txt") = some (missingMsg "assetfinder") := by
  decide

/-- Claim C3 (code-bug evaluation): with excludeSet = {subfinder}, the
subfinder command line is still spawned by `prepare_subdomains`, although
the specified invariant says an excluded tool is never run anywhere. -/
theorem exclude_set_stage1_bug :
    (resultTrace (run_all wSubOnly ⟨[], []⟩ "example.com" "outputs" [] 8 none (some ["subfinder"]))).contains
        ["subfinder", "-d", "example.com", "-silent"] = true := by
  decide

/-! ## Claim C6: the first-host extraction crashes on a blank line -/

/-- Claim C6 (code-bug evaluation): `first_host = line.strip().split()[0]`
indexes into the word list before checking it, so a chosen input file whose
first line is blank makes the fuzz stage raise IndexError and the whole run
abort, instead of skipping the blank line (or skipping the fuzzer)
"without raising any error". -/
theorem first_host_blank_line_bug :
    resultErr (run_all wNoTools ⟨fsBlankFirstLine, []⟩ "example.com" "outputs" [] 8 (some ["ffuf"]) none) =
      some "list index out of range" := by
  decide

/-! ## Claim C1: the scan-input fallback checks existence only -/

/-- Counterexample to C1 as stated: in a world where every tool is
installed and prints nothing, the httpx live-host artifact exists but is
empty (zero bytes), and the scan stage still consumes it - dnsx is spawned
on the live-host artifact, not on the subdomain artifact the claimed
fallback ("exists AND non-empty") would have chosen. -/
theorem scan_input_empty_live_host_counterexample :
    resultRead (run_all wEmptyOut ⟨[], []⟩ "example.com" "outputs" [] 8 none none)
        "outputs/httpx_live_all_subs_example.com.txt.txt" = some "" ∧
    (resultTrace (run_all wEmptyOut ⟨[], []⟩ "example.com" "outputs" [] 8 none none)).contains
        ["dnsx", "-l", "outputs/httpx_live_all_subs_example.com.txt.txt", "-silent"] = true := by
  decide

/-! ## Claim C7: the extract stage runs on an empty URL artifact -/

/-- Counterexample to C7 as stated: in a world where every tool is
installed and prints nothing, the canonical URL artifact is created empty
by the unconditional stage-2 merge, and the extract stage still runs over
it (here: the uro invocation), although the claim says an empty artifact
makes the extract stage skip. -/
theorem extract_on_empty_urls_counterexample :
    resultRead (run_all wEmptyOut ⟨[], []⟩ "example.com" "outputs" [] 8 none none)
        "outputs/urls_all_example.com.txt" = some "" ∧
    (resultTrace (run_all wEmptyOut ⟨[], []⟩ "example.com" "outputs" [] 8 none none)).contains
        ["bash", "-lc", "cat outputs/urls_all_example.com.txt | uro || true"] = true := by
  decide

/-! ## Stage-level lemmas: reads preserved and traces monotone -/

theorem read_if_mod {p : String} (b : Bool) (f : St → St) (st : St)
    (hf : ∀ s, (f s).fs.read p = s.fs.read p) :
    (if b then f st else st).fs.read p = st.fs.read p := by
  cases b
  · rfl
  · exact hf st

theorem tr_if_mod (b : Bool) (f : St → St) (st : St) (x : List String)
    (hf : ∀ s, x ∈ s.tr → x ∈ (f s).tr) (hx : x ∈ st.tr) :
    x ∈ (if b then f st else st).tr := by
  cases b
  · exact hx
  · exact hf st hx

theorem prepare_subdomains_fst (w : World) (st : St) (outdir domain : String) :
    (prepare_subdomains w st outdir domain).1 =
      os_path_join outdir ("all_subs_" ++ domain ++ ".txt") := rfl

theorem probe_step_read_ne {w : World} {st : St} {subdomains_file outdir : String}
    {headers : List String} {only_set skip_set : Option (List String)} {p : String}
    (h1 : p ≠ safe_join outdir ("httpx_live_" ++ basename subdomains_file ++ ".txt"))
    (h2 : p ≠ os_path_join outdir ("httpx" ++ "_missing.txt")) :
    (probe_step w st subdomains_file outdir headers only_set skip_set).fs.read p =
      st.fs.read p := by
  unfold probe_step
  refine read_if_mod _ _ _ (fun s => ?_)
  unfold httpx_module
  exact tool_step_read_ne_some h1 h2

theorem scan_step_read_ne {w : World} {st : St} {input_for_scans outdir : String}
    {headers : List String} {only_set skip_set : Option (List String)} {p : String}
    (h1 : p ≠ safe_join outdir ("dnsx_" ++ basename input_for_scans ++ ".txt"))
    (h2 : p ≠ os_path_join outdir ("dnsx" ++ "_missing.txt"))
    (h3 : p ≠ safe_join outdir ("naabu_" ++ basename input_for_scans ++ ".txt"))
    (h4 : p ≠ os_path_join outdir ("naabu" ++ "_missing.txt"))
    (h5 : p ≠ safe_join outdir ("nuclei_" ++ basename input_for_scans ++ ".txt"))
    (h6 : p ≠ os_path_join outdir ("nuclei" ++ "_missing.txt")) :
    (scan_step w st input_for_scans outdir headers only_set skip_set).fs.read p =
      st.fs.read p := by
  unfold scan_step
  rw [read_if_mod _ _ _ (fun s => by unfold nuclei_module; exact tool_step_read_ne_some h5 h6)]
  rw [read_if_mod _ _ _ (fun s => by unfold naabu_module; exact tool_step_read_ne_some h3 h4)]
  rw [read_if_mod _ _ _ (fun s => by unfold dnsx_module; exact tool_step_read_ne_some h1 h2)]

theorem gf_module_tr_mono {w : World} {st : St} {input_file outdir : String}
    {x : List String} (hx : x ∈ st.tr) :
    x ∈ ((gf_module w input_file outdir st).2).tr := by
  unfold gf_module
  have htr : ((ensure_tool w st "gf" outdir).2).tr = st.tr := ensure_tool_tr
  split
  next st2 heq => rw [heq] at htr; rw [htr]; exact hx
  next st2 heq =>
    simp only [List.foldl_cons, List.foldl_nil]
    rw [heq] at htr
    refine runCmd_tr_mono (runCmd_tr_mono (runCmd_tr_mono (runCmd_tr_mono ?_)))
    rw [htr]
    exact hx

theorem extract_step_tr_mono {w : World} {st : St} {urls_all outdir : String}
    {headers : List String} {only_set skip_set : Option (List String)}
    {x : List String} (hx : x ∈ st.tr) :
    x ∈ (extract_step w st urls_all outdir headers only_set skip_set).tr := by
  unfold extract_step
  split
  · refine tr_if_mod _ _ _ _ (fun s hs => by
      unfold unfurl_module; exact tool_step_tr_mono hs) ?_
    refine tr_if_mod _ _ _ _ (fun s hs => by
      unfold uro_module; exact tool_step_tr_mono hs) ?_
    by_cases hgf : eligible "gf" only_set skip_set = true
    · rw [if_pos hgf]
      have hmono : x ∈ ((gf_module w urls_all outdir st).2).tr := gf_module_tr_mono hx
      split
      next st2 heq =>
        rw [heq] at hmono
        exact hmono
      next outs st2 heq =>
        rw [heq] at hmono
        split
        · exact hmono
        · split
          · exact hmono
          · split
            · unfold dalfox_module
              exact tool_step_tr_mono hmono
            · exact hmono
    · rw [if_neg hgf]
      exact hx
  · exact hx

theorem extract_step_runs_uro {w : World} {st : St} {urls_all outdir : String}
    {headers : List String} {only_set skip_set : Option (List String)}
    (hex : os_path_exists st.fs urls_all = true)
    (hel : eligible "uro" only_set skip_set = true)
    (hw : w.installed "uro" = true) :
    ["bash", "-lc", "cat " ++ String.intercalate " " [urls_all] ++ " | uro || true"] ∈
      (extract_step w st urls_all outdir headers only_set skip_set).tr := by
  unfold extract_step
  rw [if_pos hex]
  refine tr_if_mod _ _ _ _ (fun s hs => by
    unfold unfurl_module; exact tool_step_tr_mono hs) ?_
  rw [if_pos hel]
  unfold uro_module
  exact tool_step_tr_self _ _ _ _ hw

theorem extract_step_read_ne {w : World} {st : St} {urls_all outdir : String}
    {headers : List String} {only_set skip_set : Option (List String)} {p : String}
    (h1 : p ≠ safe_join outdir (splitextRoot (basename urls_all) ++ "_gf_xss.txt"))
    (h2 : p ≠ safe_join outdir (splitextRoot (basename urls_all) ++ "_gf_sqli.txt"))
    (h3 : p ≠ safe_join outdir (splitextRoot (basename urls_all) ++ "_gf_redirect.txt"))
    (h4 : p ≠ safe_join outdir (splitextRoot (basename urls_all) ++ "_gf_ssrf.txt"))
    (h5 : p ≠ os_path_join outdir ("gf" ++ "_missing.txt"))
    (h6 : p ≠ os_path_join outdir ("dalfox" ++ "_missing.txt"))
    (h7 : p ≠ safe_join outdir ("uro_" ++ toString w.time ++ ".txt"))
    (h8 : p ≠ os_path_join outdir ("uro" ++ "_missing.txt"))
    (h9 : p ≠ safe_join outdir ("unfurl_" ++ basename urls_all ++ ".txt"))
    (h10 : p ≠ os_path_join outdir ("unfurl" ++ "_missing.txt")) :
    (extract_step w st urls_all outdir headers only_set skip_set).fs.read p =
      st.fs.read p := by
  have hgf : ∀ s : St, ((gf_module w urls_all outdir s).2).fs.read p = s.fs.read p := by
    intro s
    unfold gf_module
    have hmarker : ((ensure_tool w s "gf" outdir).2).fs.read p = s.fs.read p :=
      ensure_tool_read_ne h5
    split
    next st2 heq => rw [heq] at hmarker; exact hmarker
    next st2 heq =>
      simp only [List.foldl_cons, List.foldl_nil]
      rw [heq] at hmarker
      rw [runCmd_read_ne h4, runCmd_read_ne h3, runCmd_read_ne h2, runCmd_read_ne h1]
      exact hmarker
  unfold extract_step
  split
  · rw [read_if_mod _ _ _ (fun s => by
      unfold unfurl_module; exact tool_step_read_ne_some h9 h10)]
    rw [read_if_mod _ _ _ (fun s => by
      unfold uro_module; exact tool_step_read_ne_some h7 h8)]
    by_cases hgfe : eligible "gf" only_set skip_set = true
    · rw [if_pos hgfe]
      have hg := hgf st
      split
      next st2 heq =>
        rw [heq] at hg
        exact hg
      next outs st2 heq =>
        rw [heq] at hg
        split
        · exact hg
        · split
          · exact hg
          · split
            · rw [show (dalfox_module w _ outdir headers st2).fs.read p = st2.fs.read p from by
                unfold dalfox_module; exact tool_step_read_ne_none h6]
              exact hg
            · exact hg
    · rw [if_neg hgfe]
  · rfl

theorem httprobe_step_tr_mono {w : World} {st : St} {subdomains_file outdir : String}
    {only_set skip_set : Option (List String)} {x : List String} (hx : x ∈ st.tr) :
    x ∈ (httprobe_step w st subdomains_file outdir only_set skip_set).tr := by
  unfold httprobe_step
  refine tr_if_mod _ _ _ _ (fun s hs => by
    unfold httprobe_module; exact tool_step_tr_mono hs) hx

theorem httprobe_step_read_ne {w : World} {st : St} {subdomains_file outdir : String}
    {only_set skip_set : Option (List String)} {p : String}
    (h1 : p ≠ safe_join outdir ("httprobe_" ++ basename subdomains_file ++ ".txt"))
    (h2 : p ≠ os_path_join outdir ("httprobe" ++ "_missing.txt")) :
    (httprobe_step w st subdomains_file outdir only_set skip_set).fs.read p =
      st.fs.read p := by
  unfold httprobe_step
  refine read_if_mod _ _ _ (fun s => ?_)
  unfold httprobe_module
  exact tool_step_read_ne_some h1 h2

theorem ffuf_step_ok_tr_mono {w : World} {st st2 : St} {input_for_scans outdir : String}
    {headers : List String} {x : List String}
    (heq : ffuf_step w st input_for_scans outdir headers = Except.ok st2)
    (hx : x ∈ st.tr) : x ∈ st2.tr := by
  simp only [ffuf_step] at heq
  by_cases hwl : os_path_exists st.fs "wordlists/common.txt" = true
  · rw [if_pos hwl] at heq
    split at heq
    · cases heq
    · cases heq
      exact hx
    · cases heq
      unfold ffuf_module
      exact tool_step_tr_mono hx
  · rw [if_neg hwl] at heq
    cases heq
    exact hx

theorem gobuster_step_ok_tr_mono {w : World} {st st2 : St} {input_for_scans outdir : String}
    {headers : List String} {x : List String}
    (heq : gobuster_step w st input_for_scans outdir headers = Except.ok st2)
    (hx : x ∈ st.tr) : x ∈ st2.tr := by
  simp only [gobuster_step] at heq
  by_cases hwl : os_path_exists st.fs "wordlists/common.txt" = true
  · rw [if_pos hwl] at heq
    split at heq
    · cases heq
    · cases heq
      exact hx
    · cases heq
      unfold gobuster_module
      exact tool_step_tr_mono hx
  · rw [if_neg hwl] at heq
    cases heq
    exact hx

theorem fuzz_step_ok_tr_mono {w : World} {st st2 : St} {input_for_scans outdir : String}
    {headers : List String} {only_set skip_set : Option (List String)} {x : List String}
    (heq : fuzz_step w st input_for_scans outdir headers only_set skip_set = Except.ok st2)
    (hx : x ∈ st.tr) : x ∈ st2.tr := by
  unfold fuzz_step at heq
  split at heq
  · cases heq
  next stf heqf =>
    have hf : x ∈ stf.tr := by
      revert heqf
      split
      · intro heqf
        exact ffuf_step_ok_tr_mono heqf hx
      · intro heqf
        cases heqf
        exact hx
    revert heq
    split
    · intro heq
      exact gobuster_step_ok_tr_mono heq hf
    · intro heq
      cases heq
      exact hf

theorem finalize_index_tr (st : St) (outdir : String) :
    (finalize_index st outdir).tr = st.tr := rfl

theorem finalize_index_read_ne {st : St} {outdir p : String}
    (h : p ≠ os_path_join outdir "outputs_index.txt") :
    (finalize_index st outdir).fs.read p = st.fs.read p := by
  unfold finalize_index
  exact write_file_read_ne h

theorem ffuf_step_ok_read_ne {w : World} {st st2 : St} {input_for_scans outdir : String}
    {headers : List String} {p : String}
    (heq : ffuf_step w st input_for_scans outdir headers = Except.ok st2)
    (h1 : p ≠ safe_join outdir ("ffuf_" ++ toString w.time ++ ".txt"))
    (h2 : p ≠ os_path_join outdir ("ffuf" ++ "_missing.txt"))
    (h3 : p ≠ safe_join outdir "ffuf_missing_wordlist.txt") :
    st2.fs.read p = st.fs.read p := by
  simp only [ffuf_step] at heq
  by_cases hwl : os_path_exists st.fs "wordlists/common.txt" = true
  · rw [if_pos hwl] at heq
    split at heq
    · cases heq
    · cases heq
      rfl
    · cases heq
      unfold ffuf_module
      exact tool_step_read_ne_some h1 h2
  · rw [if_neg hwl] at heq
    cases heq
    exact write_file_read_ne h3

theorem gobuster_step_ok_read_ne {w : World} {st st2 : St} {input_for_scans outdir : String}
    {headers : List String} {p : String}
    (heq : gobuster_step w st input_for_scans outdir headers = Except.ok st2)
    (h1 : p ≠ safe_join outdir ("gobuster_" ++ toString w.time ++ ".txt"))
    (h2 : p ≠ os_path_join outdir ("gobuster" ++ "_missing.txt"))
    (h3 : p ≠ safe_join outdir "gobuster_missing_wordlist.txt") :
    st2.fs.read p = st.fs.read p := by
  simp only [gobuster_step] at heq
  by_cases hwl : os_path_exists st.fs "wordlists/common.txt" = true
  · rw [if_pos hwl] at heq
    split at heq
    · cases heq
    · cases heq
      rfl
    · cases heq
      unfold gobuster_module
      exact tool_step_read_ne_some h1 h2
  · rw [if_neg hwl] at heq
    cases heq
    exact write_file_read_ne h3

theorem fuzz_step_ok_read_ne {w : World} {st st2 : St} {input_for_scans outdir : String}
    {headers : List String} {only_set skip_set : Option (List String)} {p : String}
    (heq : fuzz_step w st input_for_scans outdir headers only_set skip_set = Except.ok st2)
    (h1 : p ≠ safe_join outdir ("ffuf_" ++ toString w.time ++ ".txt"))
    (h2 : p ≠ os_path_join outdir ("ffuf" ++ "_missing.txt"))
    (h3 : p ≠ safe_join outdir "ffuf_missing_wordlist.txt")
    (h4 : p ≠ safe_join outdir ("gobuster_" ++ toString w.time ++ ".txt"))
    (h5 : p ≠ os_path_join outdir ("gobuster" ++ "_missing.txt"))
    (h6 : p ≠ safe_join outdir "gobuster_missing_wordlist.txt") :
    st2.fs.read p = st.fs.read p := by
  unfold fuzz_step at heq
  split at heq
  · cases heq
  next stf heqf =>
    have hf : stf.fs.read p = st.fs.read p := by
      revert heqf
      split
      · intro heqf
        exact ffuf_step_ok_read_ne heqf h1 h2 h3
      · intro heqf
        cases heqf
        rfl
    have hg : st2.fs.read p = stf.fs.read p := by
      revert heq
      split
      · intro heq
        exact gobuster_step_ok_read_ne heq h4 h5 h6
      · intro heq
        cases heq
        rfl
    rw [hg, hf]

theorem probe_step_creates {w : World} {st : St} {subdomains_file outdir : String}
    {headers : List String} {only_set skip_set : Option (List String)}
    (hel : eligible "httpx" only_set skip_set = true)
    (hw : w.installed "httpx" = true) :
    os_path_exists (probe_step w st subdomains_file outdir headers only_set skip_set).fs
      (safe_join outdir ("httpx_live_" ++ basename subdomains_file ++ ".txt")) = true := by
  unfold probe_step
  rw [if_pos hel]
  unfold httpx_module
  unfold os_path_exists
  exact tool_step_creates _ _ _ _ hw

theorem probe_step_skipped_read {w : World} {st : St} {subdomains_file outdir : String}
    {headers : List String} {only_set skip_set : Option (List String)} {p : String}
    (hne : ¬(eligible "httpx" only_set skip_set = true ∧ w.installed "httpx" = true)) :
    (probe_step w st subdomains_file outdir headers only_set skip_set).fs.read p =
      if p = os_path_join outdir ("httpx" ++ "_missing.txt") ∧
          eligible "httpx" only_set skip_set = true then
        some (missingMsg "httpx")
      else st.fs.read p := by
  unfold probe_step
  by_cases hel : eligible "httpx" only_set skip_set = true
  · rw [if_pos hel]
    have hw : w.installed "httpx" = false := by
      cases hinst : w.installed "httpx"
      · rfl
      · exact absurd ⟨hel, hinst⟩ hne
    unfold httpx_module
    rw [tool_step_absent _ _ _ _ hw]
    by_cases hp : p = os_path_join outdir ("httpx" ++ "_missing.txt")
    · rw [if_pos ⟨hp, hel⟩, hp]
      simp [write_file, FS.read_write_self]
    · rw [if_neg (fun hand => hp hand.1)]
      exact write_file_read_ne hp
  · rw [if_neg hel]
    rw [if_neg (fun hand => hel hand.2)]

theorem scan_step_tr_mono {w : World} {st : St} {input_for_scans outdir : String}
    {headers : List String} {only_set skip_set : Option (List String)}
    {x : List String} (hx : x ∈ st.tr) :
    x ∈ (scan_step w st input_for_scans outdir headers only_set skip_set).tr := by
  unfold scan_step
  refine tr_if_mod _ _ _ _ (fun s hs => by
    unfold nuclei_module; exact tool_step_tr_mono hs) ?_
  refine tr_if_mod _ _ _ _ (fun s hs => by
    unfold naabu_module; exact tool_step_tr_mono hs) ?_
  refine tr_if_mod _ _ _ _ (fun s hs => by
    unfold dnsx_module; exact tool_step_tr_mono hs) hx

theorem scan_step_runs_dnsx {w : World} {st : St} {input_for_scans outdir : String}
    {headers : List String} {only_set skip_set : Option (List String)}
    (hel : eligible "dnsx" only_set skip_set = true)
    (hw : w.installed "dnsx" = true) :
    ["dnsx", "-l", input_for_scans, "-silent"] ∈
      (scan_step w st input_for_scans outdir headers only_set skip_set).tr := by
  unfold scan_step
  refine tr_if_mod _ _ _ _ (fun s hs => by
    unfold nuclei_module; exact tool_step_tr_mono hs) ?_
  refine tr_if_mod _ _ _ _ (fun s hs => by
    unfold naabu_module; exact tool_step_tr_mono hs) ?_
  rw [if_pos hel]
  unfold dnsx_module
  exact tool_step_tr_self _ _ _ _ hw

/-! ## Claim C7 (amended): the extract stage runs whenever its tools are
selected, regardless of the URL artifact's content -/

/-- Claim C7, amended to what the code does: the canonical URL artifact
always exists when the extract stage is reached (the stage-2 merge creates
it unconditionally, possibly as a zero-byte file), and the guard at line
337 checks existence only, so the extract stage runs over it in every
completed run in which its tools are selected - its emptiness is never
examined.  Witnessed here by the uro invocation: whenever uro is eligible
and installed, every run that returns normally has spawned uro over the
canonical URL artifact, with no condition on that artifact being
non-empty. -/
theorem extract_stage_unconditional
    (w : World) (st0 : St) (domain outdir : String) (headers : List String)
    (threads : Nat) (only_set skip_set : Option (List String)) (st2 : St)
    (hrun : run_all w st0 domain outdir headers threads only_set skip_set = Except.ok st2)
    (hel : eligible "uro" only_set skip_set = true)
    (hw : w.installed "uro" = true) :
    ["bash", "-lc",
      "cat " ++ String.intercalate " "
        [os_path_join outdir ("urls_all_" ++ domain ++ ".txt")] ++ " | uro || true"] ∈
      st2.tr := by
  have hscan : ∀ (inp : String) (stm : St),
      (scan_step w stm inp outdir headers only_set skip_set).fs.read
        (os_path_join outdir ("urls_all_" ++ domain ++ ".txt")) =
      stm.fs.read (os_path_join outdir ("urls_all_" ++ domain ++ ".txt")) := by
    intro inp stm
    refine scan_step_read_ne ?_ ?_ ?_ ?_ ?_ ?_
    · exact os_path_join_ne outdir (ne_of_nth 0 rfl rfl (by decide))
    · exact os_path_join_ne outdir (ne_of_nth 0 rfl rfl (by decide))
    · exact os_path_join_ne outdir (ne_of_nth 0 rfl rfl (by decide))
    · exact os_path_join_ne outdir (ne_of_nth 0 rfl rfl (by decide))
    · exact os_path_join_ne outdir (ne_of_nth 0 rfl rfl (by decide))
    · exact os_path_join_ne outdir (ne_of_nth 0 rfl rfl (by decide))
  have hprobe : ∀ (sf : String) (stm : St),
      (probe_step w stm sf outdir headers only_set skip_set).fs.read
        (os_path_join outdir ("urls_all_" ++ domain ++ ".txt")) =
      stm.fs.read (os_path_join outdir ("urls_all_" ++ domain ++ ".txt")) := by
    intro sf stm
    refine probe_step_read_ne ?_ ?_
    · exact os_path_join_ne outdir (ne_of_nth 0 rfl rfl (by decide))
    · exact os_path_join_ne outdir (ne_of_nth 0 rfl rfl (by decide))
  simp only [run_all] at hrun
  split at hrun
  · exact absurd hrun (by simp)
  next stf heqf =>
    have hst2 : st2 = finalize_index stf outdir := (Except.ok.inj hrun).symm
    rw [hst2, finalize_index_tr]
    refine fuzz_step_ok_tr_mono heqf ?_
    refine httprobe_step_tr_mono ?_
    refine extract_step_runs_uro ?_ hel hw
    unfold os_path_exists
    rw [hscan, hprobe]
    simp only [merge_unique, FS.read_write_self, Option.isSome_some]

/-- Witness for the amended C7: a concrete world with only uro installed
and empty process output - the URL artifact is a zero-byte file and uro is
still spawned over it. -/
theorem extract_stage_unconditional_witness :
    ∃ st2, run_all wUro ⟨[], []⟩ "example.com" "outputs" [] 8 none none = Except.ok st2 ∧
      ["bash", "-lc",
        "cat " ++ String.intercalate " "
          [os_path_join "outputs" ("urls_all_" ++ "example.com" ++ ".txt")] ++ " | uro || true"] ∈
        st2.tr :=
  ⟨_, rfl, extract_stage_unconditional wUro ⟨[], []⟩ "example.com" "outputs" [] 8 none none
    _ rfl rfl rfl⟩

/-! ## Path algebra under slash-free names -/

theorem takeWhile_append_stop {α : Type} (p : α → Bool) (l : List α) (x : α) (r : List α)
    (hl : ∀ a ∈ l, p a = true) (hx : p x = false) :
    (l ++ x :: r).takeWhile p = l := by
  induction l with
  | nil => simp [List.takeWhile_cons, hx]
  | cons a t ih =>
    have ha : p a = true := hl a (List.mem_cons_self _ _)
    simp [List.takeWhile_cons, ha, ih (fun b hb => hl b (List.mem_cons_of_mem _ hb))]

theorem noSlash_forall {s : String} (h : noSlash s = true) : ∀ c ∈ s.data, ¬(c = '/') := by
  intro c hc
  have := List.all_eq_true.mp h c hc
  simpa using this

theorem basename_osJoin (d : String) {n : String} (h : noSlash n = true) :
    basename (os_path_join d n) = n := by
  unfold basename os_path_join
  apply String.ext
  show ((d ++ "/" ++ n).data.reverse.takeWhile (fun c => !(c = '/'))).reverse = n.data
  have hdata : (d ++ "/" ++ n).data = (d.data ++ ['/']) ++ n.data := by
    rw [String.data_append, String.data_append]
  rw [hdata, List.reverse_append, List.reverse_append]
  rw [show (['/'] : List Char).reverse = ['/'] from rfl]
  rw [show (['/'] : List Char) ++ d.data.reverse = '/' :: d.data.reverse from rfl]
  rw [takeWhile_append_stop _ _ _ _ ?_ ?_]
  · exact List.reverse_reverse _
  · intro a ha
    rw [List.mem_reverse] at ha
    simpa using noSlash_forall h a ha
  · simp

theorem splitextRoot_txt (s : String) : splitextRoot (s ++ ".txt") = s := by
  unfold splitextRoot
  have hany : (s ++ ".txt").data.any (fun c => c = '.') = true := by
    rw [String.data_append, List.any_append]
    rw [show (".txt" : String).data.any (fun c => c = '.') = true from rfl]
    simp
  rw [if_pos hany]
  apply String.ext
  show (((s ++ ".txt").data.reverse.dropWhile (fun c => !(c = '.'))).drop 1).reverse = s.data
  have hdata : (s ++ ".txt").data.reverse = 't' :: 'x' :: 't' :: '.' :: s.data.reverse := by
    rw [String.data_append, List.reverse_append]
    rfl
  rw [hdata]
  rw [show List.dropWhile (fun c => !(c = '.'))
      ('t' :: 'x' :: 't' :: '.' :: s.data.reverse) = '.' :: s.data.reverse from rfl]
  rw [show List.drop 1 ('.' :: s.data.reverse) = s.data.reverse from rfl]
  exact List.reverse_reverse _

theorem append_ne_append_right {a s t : String} (h : s.length ≠ t.length) :
    a ++ s ≠ a ++ t := by
  apply ne_of_length
  rw [String.length_append, String.length_append]
  omega

theorem noSlash_append {a b : String} (ha : noSlash a = true) (hb : noSlash b = true) :
    noSlash (a ++ b) = true := by
  unfold noSlash at *
  rw [String.data_append, List.all_append, ha, hb]
  rfl

/-! ## Claim C9: the merge always creates its destination, so the canonical
URL artifact exists after stage 2 in every run -/

/-- Claim C9: `merge_unique` always creates (or overwrites) the destination
file - even when none of the sources exist, in which case the destination
is a zero-byte artifact; consequently the canonical URL artifact
`urls_all_<domain>.txt` exists in the final state of every run that returns
normally, whatever the selection sets and installed tools (the slash-free
domain hypothesis only rules out path names that escape the output
directory). -/
theorem urls_artifact_always_created
    (fs : FS) (files : List String) (dest : String)
    (w : World) (st0 : St) (domain outdir : String) (headers : List String)
    (threads : Nat) (only_set skip_set : Option (List String)) (st2 : St) :
    ((merge_unique fs files dest).read dest).isSome = true ∧
    ((∀ f ∈ files, FS.read fs f = none) → (merge_unique fs files dest).read dest = some "") ∧
    (noSlash domain = true →
      run_all w st0 domain outdir headers threads only_set skip_set = Except.ok st2 →
      os_path_exists st2.fs (os_path_join outdir ("urls_all_" ++ domain ++ ".txt")) = true) := by
  refine ⟨?_, ?_, ?_⟩
  · unfold merge_unique
    rw [FS.read_write_self]
    rfl
  · intro h
    unfold merge_unique
    rw [collectLines_none fs files h, FS.read_write_self]
    rfl
  · intro hns hrun
    have hn : noSlash ("urls_all_" ++ domain ++ ".txt") = true :=
      noSlash_append (noSlash_append (by decide) hns) (by decide)
    have hB : splitextRoot (basename (os_path_join outdir ("urls_all_" ++ domain ++ ".txt"))) =
        "urls_all_" ++ domain := by
      rw [basename_osJoin outdir hn]
      exact splitextRoot_txt ("urls_all_" ++ domain)
    have hscan : ∀ (inp : String) (stm : St),
        (scan_step w stm inp outdir headers only_set skip_set).fs.read
          (os_path_join outdir ("urls_all_" ++ domain ++ ".txt")) =
        stm.fs.read (os_path_join outdir ("urls_all_" ++ domain ++ ".txt")) := by
      intro inp stm
      refine scan_step_read_ne ?_ ?_ ?_ ?_ ?_ ?_
      · exact os_path_join_ne outdir (ne_of_nth 0 rfl rfl (by decide))
      · exact os_path_join_ne outdir (ne_of_nth 0 rfl rfl (by decide))
      · exact os_path_join_ne outdir (ne_of_nth 0 rfl rfl (by decide))
      · exact os_path_join_ne outdir (ne_of_nth 0 rfl rfl (by decide))
      · exact os_path_join_ne outdir (ne_of_nth 0 rfl rfl (by decide))
      · exact os_path_join_ne outdir (ne_of_nth 0 rfl rfl (by decide))
    have hprobe : ∀ (sf : String) (stm : St),
        (probe_step w stm sf outdir headers only_set skip_set).fs.read
          (os_path_join outdir ("urls_all_" ++ domain ++ ".txt")) =
        stm.fs.read (os_path_join outdir ("urls_all_" ++ domain ++ ".txt")) := by
      intro sf stm
      refine probe_step_read_ne ?_ ?_
      · exact os_path_join_ne outdir (ne_of_nth 0 rfl rfl (by decide))
      · exact os_path_join_ne outdir (ne_of_nth 0 rfl rfl (by decide))
    have hextract : ∀ stm : St,
        (extract_step w stm (os_path_join outdir ("urls_all_" ++ domain ++ ".txt"))
          outdir headers only_set skip_set).fs.read
            (os_path_join outdir ("urls_all_" ++ domain ++ ".txt")) =
        stm.fs.read (os_path_join outdir ("urls_all_" ++ domain ++ ".txt")) := by
      intro stm
      refine extract_step_read_ne ?_ ?_ ?_ ?_ ?_ ?_ ?_ ?_ ?_ ?_
      · rw [hB]
        exact os_path_join_ne outdir (append_ne_append_right (by decide))
      · rw [hB]
        exact os_path_join_ne outdir (append_ne_append_right (by decide))
      · rw [hB]
        exact os_path_join_ne outdir (append_ne_append_right (by decide))
      · rw [hB]
        exact os_path_join_ne outdir (append_ne_append_right (by decide))
      · exact os_path_join_ne outdir (ne_of_nth 0 rfl rfl (by decide))
      · exact os_path_join_ne outdir (ne_of_nth 0 rfl rfl (by decide))
      · exact os_path_join_ne outdir (ne_of_nth 2 rfl rfl (by decide))
      · exact os_path_join_ne outdir (ne_of_nth 2 rfl rfl (by decide))
      · exact os_path_join_ne outdir (ne_of_nth 1 rfl rfl (by decide))
      · exact os_path_join_ne outdir (ne_of_nth 1 rfl rfl (by decide))
    have hhttprobe : ∀ (sf : String) (stm : St),
        (httprobe_step w stm sf outdir only_set skip_set).fs.read
          (os_path_join outdir ("urls_all_" ++ domain ++ ".txt")) =
        stm.fs.read (os_path_join outdir ("urls_all_" ++ domain ++ ".txt")) := by
      intro sf stm
      refine httprobe_step_read_ne ?_ ?_
      · exact os_path_join_ne outdir (ne_of_nth 0 rfl rfl (by decide))
      · exact os_path_join_ne outdir (ne_of_nth 0 rfl rfl (by decide))
    have hfinal : ∀ stm : St,
        (finalize_index stm outdir).fs.read
          (os_path_join outdir ("urls_all_" ++ domain ++ ".txt")) =
        stm.fs.read (os_path_join outdir ("urls_all_" ++ domain ++ ".txt")) := by
      intro stm
      exact finalize_index_read_ne (os_path_join_ne outdir (ne_of_nth 0 rfl rfl (by decide)))
    have hfuzz : ∀ (inp : String) (stm stf : St),
        fuzz_step w stm inp outdir headers only_set skip_set = Except.ok stf →
        stf.fs.read (os_path_join outdir ("urls_all_" ++ domain ++ ".txt")) =
        stm.fs.read (os_path_join outdir ("urls_all_" ++ domain ++ ".txt")) := by
      intro inp stm stf hq
      refine fuzz_step_ok_read_ne hq ?_ ?_ ?_ ?_ ?_ ?_
      · exact os_path_join_ne outdir (ne_of_nth 0 rfl rfl (by decide))
      · exact os_path_join_ne outdir (ne_of_nth 0 rfl rfl (by decide))
      · exact os_path_join_ne outdir (ne_of_nth 0 rfl rfl (by decide))
      · exact os_path_join_ne outdir (ne_of_nth 0 rfl rfl (by decide))
      · exact os_path_join_ne outdir (ne_of_nth 0 rfl rfl (by decide))
      · exact os_path_join_ne outdir (ne_of_nth 0 rfl rfl (by decide))
    simp only [run_all] at hrun
    split at hrun
    · exact absurd hrun (by simp)
    next stf heqf =>
      have hst2 : st2 = finalize_index stf outdir := (Except.ok.inj hrun).symm
      rw [hst2]
      unfold os_path_exists
      rw [hfinal, hfuzz _ _ _ heqf, hhttprobe, hextract, hscan, hprobe]
      simp only [merge_unique, FS.read_write_self, Option.isSome_some]

/-- Witness for C9 at concrete inputs: a merge with a single nonexistent
source creates a zero-byte destination, and a run with no tool installed
still ends with the canonical URL artifact present. -/
theorem urls_artifact_always_created_witness :
    ((merge_unique [] ["nope"] "d").read "d").isSome = true ∧
    (merge_unique [] ["nope"] "d").read "d" = some "" ∧
    ∃ st2, run_all wNoTools ⟨[], []⟩ "example.com" "outputs" [] 8 none none = Except.ok st2 ∧
      os_path_exists st2.fs (os_path_join "outputs" ("urls_all_" ++ "example.com" ++ ".txt")) = true :=
  ⟨(urls_artifact_always_created [] ["nope"] "d" wNoTools ⟨[], []⟩ "example.com" "outputs"
      [] 8 none none ⟨[], []⟩).1,
   (urls_artifact_always_created [] ["nope"] "d" wNoTools ⟨[], []⟩ "example.com" "outputs"
      [] 8 none none ⟨[], []⟩).2.1 (by decide),
   ⟨_, rfl,
    (urls_artifact_always_created [] ["nope"] "d" wNoTools ⟨[], []⟩ "example.com" "outputs"
      [] 8 none none _).2.2 (by decide) rfl⟩⟩

theorem crawl_step_read_ne {w : World} {st : St} {domain outdir : String}
    {headers : List String} {only_set skip_set : Option (List String)} {p : String}
    (h1 : p ≠ safe_join outdir ("katana_" ++ domain ++ ".txt"))
    (h2 : p ≠ os_path_join outdir ("katana" ++ "_missing.txt"))
    (h3 : p ≠ safe_join outdir ("wayback_" ++ domain ++ ".txt"))
    (h4 : p ≠ os_path_join outdir ("waybackurls" ++ "_missing.txt"))
    (h5 : p ≠ safe_join outdir ("gau_" ++ domain ++ ".txt"))
    (h6 : p ≠ os_path_join outdir ("gau" ++ "_missing.txt")) :
    (crawl_step w st domain outdir headers only_set skip_set).fs.read p = st.fs.read p := by
  unfold crawl_step
  rw [read_if_mod _ _ _ (fun s => by unfold gau_module; exact tool_step_read_ne_some h5 h6)]
  rw [read_if_mod _ _ _ (fun s => by unfold wayback_module; exact tool_step_read_ne_some h3 h4)]
  exact read_if_mod _ _ _ (fun s => by unfold katana_module; exact tool_step_read_ne_some h1 h2)

theorem prepare_subdomains_read_ne {w : World} {st : St} {outdir domain : String} {p : String}
    (h1 : p ≠ safe_join outdir ("subfinder_" ++ domain ++ ".txt"))
    (h2 : p ≠ os_path_join outdir ("subfinder" ++ "_missing.txt"))
    (h3 : p ≠ safe_join outdir ("assetfinder_" ++ domain ++ ".txt"))
    (h4 : p ≠ os_path_join outdir ("assetfinder" ++ "_missing.txt"))
    (h5 : p ≠ safe_join outdir ("amass_" ++ domain ++ ".txt"))
    (h6 : p ≠ os_path_join outdir ("amass" ++ "_missing.txt"))
    (h7 : p ≠ os_path_join outdir ("all_subs_" ++ domain ++ ".txt")) :
    ((prepare_subdomains w st outdir domain).2).fs.read p = st.fs.read p := by
  unfold prepare_subdomains subfinder_module assetfinder_module amass_module
  simp only
  rw [merge_unique_read_ne h7]
  rw [tool_step_read_ne_some h5 h6]
  rw [tool_step_read_ne_some h3 h4]
  exact tool_step_read_ne_some h1 h2

/-! ## Claim C1 (amended): the scan-input fallback checks existence alone -/

/-- Claim C1, amended to what the code does: the scan stage consumes the
live-host artifact if and only if that artifact EXISTS when the choice is
made - non-emptiness is never checked.  Existence at that point reduces to:
the artifact was already in the initial filesystem, or httpx was eligible
and installed (the adapter then creates the file whatever the probe
printed, even a zero-byte artifact).  Otherwise the canonical subdomain
artifact is consumed.  Stated through the dnsx invocation actually
recorded in the run. -/
theorem scan_input_decided_by_existence
    (w : World) (st0 : St) (domain outdir : String) (headers : List String)
    (threads : Nat) (only_set skip_set : Option (List String)) (st2 : St)
    (hns : noSlash domain = true)
    (hrun : run_all w st0 domain outdir headers threads only_set skip_set = Except.ok st2)
    (held : eligible "dnsx" only_set skip_set = true)
    (hwd : w.installed "dnsx" = true) :
    ((os_path_exists st0.fs
        (os_path_join outdir ("httpx_live_" ++ ("all_subs_" ++ domain ++ ".txt") ++ ".txt")) ||
      (eligible "httpx" only_set skip_set && w.installed "httpx")) = true →
      ["dnsx", "-l",
        os_path_join outdir ("httpx_live_" ++ ("all_subs_" ++ domain ++ ".txt") ++ ".txt"),
        "-silent"] ∈ st2.tr) ∧
    ((os_path_exists st0.fs
        (os_path_join outdir ("httpx_live_" ++ ("all_subs_" ++ domain ++ ".txt") ++ ".txt")) ||
      (eligible "httpx" only_set skip_set && w.installed "httpx")) = false →
      ["dnsx", "-l", os_path_join outdir ("all_subs_" ++ domain ++ ".txt"), "-silent"] ∈
        st2.tr) := by
  have hnsub : noSlash ("all_subs_" ++ domain ++ ".txt") = true :=
    noSlash_append (noSlash_append (by decide) hns) (by decide)
  have hhout : safe_join outdir
      ("httpx_live_" ++ basename ((prepare_subdomains w st0 outdir domain).1) ++ ".txt") =
      os_path_join outdir ("httpx_live_" ++ ("all_subs_" ++ domain ++ ".txt") ++ ".txt") := by
    rw [prepare_subdomains_fst, basename_osJoin outdir hnsub]
    rfl
  have hmark : safe_join outdir
      ("httpx_live_" ++ basename ((prepare_subdomains w st0 outdir domain).1) ++ ".txt") ≠
      os_path_join outdir ("httpx" ++ "_missing.txt") :=
    os_path_join_ne outdir (ne_of_nth 6 rfl rfl (by decide))
  have hneU : safe_join outdir
      ("httpx_live_" ++ basename ((prepare_subdomains w st0 outdir domain).1) ++ ".txt") ≠
      os_path_join outdir ("urls_all_" ++ domain ++ ".txt") :=
    os_path_join_ne outdir (ne_of_nth 0 rfl rfl (by decide))
  have hpsk : ∀ (sf : String) (stm : St),
      ¬(eligible "httpx" only_set skip_set = true ∧ w.installed "httpx" = true) →
      os_path_exists (probe_step w stm sf outdir headers only_set skip_set).fs
        (safe_join outdir
          ("httpx_live_" ++ basename ((prepare_subdomains w st0 outdir domain).1) ++ ".txt")) =
      os_path_exists stm.fs
        (safe_join outdir
          ("httpx_live_" ++ basename ((prepare_subdomains w st0 outdir domain).1) ++ ".txt")) := by
    intro sf stm hne
    unfold os_path_exists
    rw [probe_step_skipped_read hne]
    rw [if_neg (fun hand => hmark hand.1)]
  have hoe : ∀ stc : St,
      os_path_exists
        (merge_unique stc.fs
          [os_path_join outdir ("wayback_" ++ domain ++ ".txt"),
           os_path_join outdir ("gau_" ++ domain ++ ".txt")]
          (os_path_join outdir ("urls_all_" ++ domain ++ ".txt")))
        (safe_join outdir
          ("httpx_live_" ++ basename ((prepare_subdomains w st0 outdir domain).1) ++ ".txt")) =
      os_path_exists stc.fs
        (safe_join outdir
          ("httpx_live_" ++ basename ((prepare_subdomains w st0 outdir domain).1) ++ ".txt")) := by
    intro stc
    unfold merge_unique
    exact os_path_exists_write_ne hneU
  have hcrawlq : ∀ stm : St,
      os_path_exists (crawl_step w stm domain outdir headers only_set skip_set).fs
        (safe_join outdir
          ("httpx_live_" ++ basename ((prepare_subdomains w st0 outdir domain).1) ++ ".txt")) =
      os_path_exists stm.fs
        (safe_join outdir
          ("httpx_live_" ++ basename ((prepare_subdomains w st0 outdir domain).1) ++ ".txt")) := by
    intro stm
    unfold os_path_exists
    refine congrArg Option.isSome (crawl_step_read_ne ?_ ?_ ?_ ?_ ?_ ?_)
    · exact os_path_join_ne outdir (ne_of_nth 0 rfl rfl (by decide))
    · exact os_path_join_ne outdir (ne_of_nth 0 rfl rfl (by decide))
    · exact os_path_join_ne outdir (ne_of_nth 0 rfl rfl (by decide))
    · exact os_path_join_ne outdir (ne_of_nth 0 rfl rfl (by decide))
    · exact os_path_join_ne outdir (ne_of_nth 0 rfl rfl (by decide))
    · exact os_path_join_ne outdir (ne_of_nth 0 rfl rfl (by decide))
  have hprepq :
      os_path_exists ((prepare_subdomains w st0 outdir domain).2).fs
        (safe_join outdir
          ("httpx_live_" ++ basename ((prepare_subdomains w st0 outdir domain).1) ++ ".txt")) =
      os_path_exists st0.fs
        (safe_join outdir
          ("httpx_live_" ++ basename ((prepare_subdomains w st0 outdir domain).1) ++ ".txt")) := by
    unfold os_path_exists
    refine congrArg Option.isSome (prepare_subdomains_read_ne ?_ ?_ ?_ ?_ ?_ ?_ ?_)
    · exact os_path_join_ne outdir (ne_of_nth 0 rfl rfl (by decide))
    · exact os_path_join_ne outdir (ne_of_nth 0 rfl rfl (by decide))
    · exact os_path_join_ne outdir (ne_of_nth 0 rfl rfl (by decide))
    · exact os_path_join_ne outdir (ne_of_nth 0 rfl rfl (by decide))
    · exact os_path_join_ne outdir (ne_of_nth 0 rfl rfl (by decide))
    · exact os_path_join_ne outdir (ne_of_nth 0 rfl rfl (by decide))
    · exact os_path_join_ne outdir (ne_of_nth 0 rfl rfl (by decide))
  simp only [run_all] at hrun
  split at hrun
  · exact absurd hrun (by simp)
  next stf heqf =>
    have hst2 : st2 = finalize_index stf outdir := (Except.ok.inj hrun).symm
    constructor
    · intro hcond
      rw [hst2, finalize_index_tr]
      refine fuzz_step_ok_tr_mono heqf ?_
      refine httprobe_step_tr_mono ?_
      refine extract_step_tr_mono ?_
      convert scan_step_runs_dnsx held hwd using 2
      refine congrArg (fun x : String => ["-l", x, "-silent"]) ?_
      unfold scan_input_choice
      by_cases hpi : eligible "httpx" only_set skip_set = true ∧ w.installed "httpx" = true
      · rw [probe_step_creates hpi.1 hpi.2, if_pos rfl]
        exact hhout.symm
      · rw [hpsk _ _ hpi, hoe, hcrawlq, hprepq]
        have hfa : (eligible "httpx" only_set skip_set && w.installed "httpx") = false := by
          cases he : eligible "httpx" only_set skip_set
          · rfl
          · cases hi : w.installed "httpx"
            · simp
            · exact absurd ⟨he, hi⟩ hpi
        rw [hfa, Bool.or_false] at hcond
        rw [hhout, hcond, if_pos rfl]
    · intro hcond
      rw [hst2, finalize_index_tr]
      refine fuzz_step_ok_tr_mono heqf ?_
      refine httprobe_step_tr_mono ?_
      refine extract_step_tr_mono ?_
      convert scan_step_runs_dnsx held hwd using 2
      refine congrArg (fun x : String => ["-l", x, "-silent"]) ?_
      unfold scan_input_choice
      by_cases hpi : eligible "httpx" only_set skip_set = true ∧ w.installed "httpx" = true
      · rw [hpi.1, hpi.2] at hcond
        simp at hcond
      · rw [hpsk _ _ hpi, hoe, hcrawlq, hprepq]
        have hfa : (eligible "httpx" only_set skip_set && w.installed "httpx") = false := by
          cases he : eligible "httpx" only_set skip_set
          · rfl
          · cases hi : w.installed "httpx"
            · simp
            · exact absurd ⟨he, hi⟩ hpi
        rw [hfa, Bool.or_false] at hcond
        rw [hhout, hcond, if_neg (by simp)]
        exact (prepare_subdomains_fst w st0 outdir domain).symm

/-- Concrete run exercising `scan_input_decided_by_existence`: every tool
installed and silent, empty initial filesystem.  httpx is eligible and
installed, so the condition holds and dnsx is fed the live-host artifact. -/
theorem scan_input_decided_by_existence_witness :
    noSlash "example.com" = true ∧
    eligible "dnsx" none none = true ∧
    wEmptyOut.installed "dnsx" = true ∧
    ∃ st2, run_all wEmptyOut ⟨[], []⟩ "example.com" "outputs" [] 8 none none = Except.ok st2 ∧
      (((os_path_exists (⟨[], []⟩ : St).fs
          (os_path_join "outputs"
            ("httpx_live_" ++ ("all_subs_" ++ "example.com" ++ ".txt") ++ ".txt")) ||
        (eligible "httpx" none none && wEmptyOut.installed "httpx")) = true →
        ["dnsx", "-l",
          os_path_join "outputs"
            ("httpx_live_" ++ ("all_subs_" ++ "example.com" ++ ".txt") ++ ".txt"),
          "-silent"] ∈ st2.tr) ∧
       ((os_path_exists (⟨[], []⟩ : St).fs
          (os_path_join "outputs"
            ("httpx_live_" ++ ("all_subs_" ++ "example.com" ++ ".txt") ++ ".txt")) ||
        (eligible "httpx" none none && wEmptyOut.installed "httpx")) = false →
        ["dnsx", "-l", os_path_join "outputs" ("all_subs_" ++ "example.com" ++ ".txt"),
          "-silent"] ∈ st2.tr)) :=
  ⟨by decide, rfl, rfl,
   ⟨_, rfl,
    scan_input_decided_by_existence wEmptyOut ⟨[], []⟩ "example.com" "outputs" [] 8 none none _
      (by decide) rfl rfl rfl⟩⟩
